import Mathlib

/-! # goll-redis: a Redis-backed synchronisation adapter

A shallow embedding of `goll_redis.go` (package `gollredis`) together with the parts of the Go
standard library it calls (`net/url.QueryEscape`, `strings.TrimSpace`, `unicode/utf8`,
`sync.Mutex`), followed by theorems about the embedded code.

Conventions:
* a Go `string` is a finite sequence of bytes (`GoString`);
* a Go `error` is `Option GoError`, `none` being the nil error;
* results of the external collaborators (the redsync distributed lock, the Redis pool and
  connection) are inputs of the embedded functions.
-/

namespace GollRedis

/-! ## Go strings and errors -/

/-- A Go string: an immutable sequence of bytes. -/
abbrev GoString := List (Fin 256)

/-- The Go string spelled by an ASCII literal. -/
def lit (s : String) : GoString := s.toList.map (fun c => Fin.ofNat c.toNat)

/-- A non-nil Go error value, carrying the text returned by its Error method. -/
structure GoError where
  /-- The text of the error. -/
  msg : String
deriving DecidableEq, Repr

/-- The Go call errors.New(text). -/
def errorsNew (text : String) : GoError := ⟨text⟩

/-! ## net/url: QueryEscape -/

/-- The table upperhex of net/url. -/
def upperhex (n : Nat) : Fin 256 := (lit "0123456789ABCDEF").getD n 0

/-- The function shouldEscape of net/url at mode encodeQueryComponent. -/
def shouldEscape (c : Fin 256) : Bool :=
  if (97 ≤ c.val ∧ c.val ≤ 122) ∨ (65 ≤ c.val ∧ c.val ≤ 90) ∨ (48 ≤ c.val ∧ c.val ≤ 57) then
    -- §2.3 unreserved characters (alphanum)
    false
  else if c = 45 ∨ c = 95 ∨ c = 46 ∨ c = 126 then
    -- '-', '_', '.', '~': §2.3 unreserved characters (mark)
    false
  else if c ∈ ([36, 38, 43, 44, 47, 58, 59, 61, 63, 64] : List (Fin 256)) then
    -- '$', '&', '+', ',', '/', ':', ';', '=', '?', '@': reserved, escaped in a query component
    true
  else
    -- everything else must be escaped
    true

/-- The counting loop of escape: the numbers of spaces and of bytes needing a hex escape. -/
def escapeCounts : GoString → Nat × Nat
  | [] => (0, 0)
  | c :: s =>
    let (spaceCount, hexCount) := escapeCounts s
    if shouldEscape c then
      if c = 32 then (spaceCount + 1, hexCount) else (spaceCount, hexCount + 1)
    else (spaceCount, hexCount)

/-- The final loop of escape, which writes the output buffer byte by byte. -/
def escapeLoop : GoString → GoString
  | [] => []
  | c :: s =>
    if c = 32 then 43 :: escapeLoop s
    else if shouldEscape c then
      37 :: upperhex (c.val >>> 4) :: upperhex (c.val &&& 15) :: escapeLoop s
    else c :: escapeLoop s

/-- The function escape of net/url at mode encodeQueryComponent. -/
def escape (s : GoString) : GoString :=
  let (spaceCount, hexCount) := escapeCounts s
  if spaceCount = 0 ∧ hexCount = 0 then s
  else if hexCount = 0 then s.map (fun c => if c = 32 then 43 else c)
  else escapeLoop s

/-- The function url.QueryEscape. -/
def QueryEscape (s : GoString) : GoString := escape s

/-! ## unicode/utf8 and unicode: decoding runes -/

/-- The constant utf8.RuneError, the replacement rune U+FFFD. -/
def RuneError : Nat := 0xFFFD

/-- The constant utf8.RuneSelf: bytes below it are single-byte runes. -/
def RuneSelf : Nat := 0x80

/-- The constant utf8.UTFMax: the longest encoding of a rune, in bytes. -/
def UTFMax : Nat := 4

/-- The table first of unicode/utf8: information about the first byte of an encoding. -/
def first (b : Fin 256) : Nat :=
  if b.val < 0x80 then 0xF0        -- as: ASCII
  else if b.val < 0xC2 then 0xF1   -- xx: invalid
  else if b.val < 0xE0 then 0x02   -- s1
  else if b.val = 0xE0 then 0x13   -- s2
  else if b.val < 0xED then 0x03   -- s3
  else if b.val = 0xED then 0x23   -- s4
  else if b.val < 0xF0 then 0x03   -- s3
  else if b.val = 0xF0 then 0x34   -- s5
  else if b.val < 0xF4 then 0x04   -- s6
  else if b.val = 0xF4 then 0x44   -- s7
  else 0xF1                        -- xx: invalid

/-- The table acceptRanges of unicode/utf8: bounds (lo, hi) for the second byte. -/
def acceptRanges (i : Nat) : Nat × Nat :=
  match i with
  | 0 => (0x80, 0xBF)
  | 1 => (0xA0, 0xBF)
  | 2 => (0x80, 0x9F)
  | 3 => (0x90, 0xBF)
  | 4 => (0x80, 0x8F)
  | _ => (0, 0)

/-- The function utf8.DecodeRuneInString: the first rune of s and its width in bytes. -/
def DecodeRuneInString (s : GoString) : Nat × Nat :=
  let n := s.length
  if n < 1 then (RuneError, 0) else
  let s0 := (s.getD 0 0).val
  let x := first (s.getD 0 0)
  if x ≥ 0xF0 then
    -- the mask is all ones exactly when the low bit of x is set (x = xx)
    (if x &&& 1 = 1 then RuneError else s0, 1)
  else
  let sz := x &&& 7
  let accept := acceptRanges (x >>> 4)
  if n < sz then (RuneError, 1) else
  let s1 := (s.getD 1 0).val
  if s1 < accept.1 ∨ accept.2 < s1 then (RuneError, 1) else
  if sz ≤ 2 then (((s0 &&& 0x1F) <<< 6) ||| (s1 &&& 0x3F), 2) else
  let s2 := (s.getD 2 0).val
  if s2 < 0x80 ∨ 0xBF < s2 then (RuneError, 1) else
  if sz ≤ 3 then (((s0 &&& 0x0F) <<< 12) ||| ((s1 &&& 0x3F) <<< 6) ||| (s2 &&& 0x3F), 3) else
  let s3 := (s.getD 3 0).val
  if s3 < 0x80 ∨ 0xBF < s3 then (RuneError, 1) else
  (((s0 &&& 0x07) <<< 18) ||| ((s1 &&& 0x3F) <<< 12) ||| ((s2 &&& 0x3F) <<< 6) ||| (s3 &&& 0x3F), 4)

/-- The function utf8.RuneStart: whether b could be the first byte of an encoded rune. -/
def RuneStart (b : Fin 256) : Bool := b.val &&& 0xC0 != 0x80

/-- The backwards scan of DecodeLastRuneInString. The argument p is the value of start before
the decrement; the result is the value of start after the loop and the clamp to lim. -/
def scanStart (s : GoString) (lim : Nat) : Nat → Nat
  | 0 => lim
  | k + 1 =>
    if k < lim then lim
    else if RuneStart (s.getD k 0) then k
    else scanStart s lim k

/-- The function utf8.DecodeLastRuneInString: the last rune of s and its width in bytes. -/
def DecodeLastRuneInString (s : GoString) : Nat × Nat :=
  let end_ := s.length
  if end_ = 0 then (RuneError, 0) else
  let start := end_ - 1
  let r := (s.getD start 0).val
  if r < RuneSelf then (r, 1) else
  let lim := end_ - UTFMax
  let start := scanStart s lim start
  let (r, size) := DecodeRuneInString (s.drop start)
  if start + size ≠ end_ then (RuneError, 1) else (r, size)

/-- The function unicode.IsSpace: the Unicode White Space property. -/
def IsSpace (r : Nat) : Bool :=
  if r ≤ 0xFF then
    r = 0x09 ∨ r = 0x0A ∨ r = 0x0B ∨ r = 0x0C ∨ r = 0x0D ∨ r = 0x20 ∨ r = 0x85 ∨ r = 0xA0
  else
    r = 0x1680 ∨ (0x2000 ≤ r ∧ r ≤ 0x200A) ∨ r = 0x2028 ∨ r = 0x2029 ∨ r = 0x202F ∨
      r = 0x205F ∨ r = 0x3000

/-! ## strings: TrimSpace -/

/-- The table asciiSpace of strings: 1 at tab, newline, vertical tab, form feed, carriage
return and space, 0 elsewhere. -/
def asciiSpace (c : Fin 256) : Nat :=
  if c = 9 ∨ c = 10 ∨ c = 11 ∨ c = 12 ∨ c = 13 ∨ c = 32 then 1 else 0

/-- The loop of strings.indexFunc over the runes of the string, started at byte index i with
rest the bytes from i on. Every turn consumes at least one byte, so fuel above the length of rest
is never used up. -/
def indexFuncLoop (f : Nat → Bool) (truth : Bool) : Nat → Nat → GoString → Int
  | 0, _, _ => -1
  | fuel + 1, i, rest =>
    if rest = [] then -1
    else
      let (r, size) := DecodeRuneInString rest
      if f r = truth then (i : Int) else indexFuncLoop f truth fuel (i + size) (rest.drop size)

/-- The function strings.indexFunc: index of the first rune r with f r = truth, or -1. -/
def indexFunc (s : GoString) (f : Nat → Bool) (truth : Bool) : Int :=
  indexFuncLoop f truth (s.length + 1) 0 s

/-- The loop of strings.lastIndexFunc, started at byte index i. -/
def lastIndexFuncLoop (s : GoString) (f : Nat → Bool) (truth : Bool) : Nat → Nat → Int
  | 0, _ => -1
  | fuel + 1, i =>
    if i > 0 then
      let (r, size) := DecodeLastRuneInString (s.take i)
      if f r = truth then ((i - size : Nat) : Int) else lastIndexFuncLoop s f truth fuel (i - size)
    else -1

/-- The function strings.lastIndexFunc: index of the last rune r with f r = truth, or -1. -/
def lastIndexFunc (s : GoString) (f : Nat → Bool) (truth : Bool) : Int :=
  lastIndexFuncLoop s f truth (s.length + 1) s.length

/-- The function strings.TrimLeftFunc. -/
def TrimLeftFunc (s : GoString) (f : Nat → Bool) : GoString :=
  let i := indexFunc s f false
  if i = -1 then [] else s.drop i.toNat

/-- The function strings.TrimRightFunc. -/
def TrimRightFunc (s : GoString) (f : Nat → Bool) : GoString :=
  let i := lastIndexFunc s f false
  if 0 ≤ i ∧ (s.getD i.toNat 0).val ≥ RuneSelf then
    let wid := (DecodeRuneInString (s.drop i.toNat)).2
    s.take (i.toNat + wid)
  else
    s.take (i + 1).toNat

/-- The function strings.TrimFunc. -/
def TrimFunc (s : GoString) (f : Nat → Bool) : GoString :=
  TrimRightFunc (TrimLeftFunc s f) f

/-- The second loop of strings.TrimSpace, over t = s[start:], with stop counted from start:
looks for the last ASCII non-space byte and falls back to TrimRightFunc at a non-ASCII byte. -/
def trimSpaceStop (t : GoString) : Nat → GoString
  | 0 => t.take 0
  | stop + 1 =>
    let c := t.getD stop 0
    if c.val ≥ RuneSelf then TrimRightFunc (t.take (stop + 1)) IsSpace
    else if asciiSpace c = 0 then t.take (stop + 1)
    else trimSpaceStop t stop

/-- The function strings.TrimSpace. The recursion is the first loop (the argument is s[start:]),
which skips ASCII space and falls back to TrimFunc at a non-ASCII byte. -/
def TrimSpace : GoString → GoString
  | [] => trimSpaceStop [] 0
  | c :: rest =>
    if c.val ≥ RuneSelf then TrimFunc (c :: rest) IsSpace
    else if asciiSpace c = 0 then trimSpaceStop (c :: rest) (c :: rest).length
    else TrimSpace rest

/-- The runes of a Go string, as a range loop over the string yields them (an invalid byte
yields RuneError and is one byte wide). -/
def runesLoop : Nat → GoString → List Nat
  | 0, _ => []
  | fuel + 1, s =>
    if s = [] then []
    else (DecodeRuneInString s).1 :: runesLoop fuel (s.drop (DecodeRuneInString s).2)

/-- The runes of a Go string. -/
def runes (s : GoString) : List Nat := runesLoop s.length s

/-- A string is blank when it is empty or consists only of white space runes. -/
def isBlank (s : GoString) : Prop := ∀ r ∈ runes s, IsSpace r = true

/-! ## sync.Mutex -/

/-- A Go sync.Mutex. The field unlocks is a ghost counter of the completed Unlock calls; it is
not part of the Go value and only serves to count releases. -/
structure SyncMutex where
  /-- Whether the mutex is held. -/
  locked : Bool
  /-- Ghost: the number of Unlock calls completed on this mutex. -/
  unlocks : Nat
deriving DecidableEq, Repr

/-- The zero value of sync.Mutex: an unlocked mutex. -/
def SyncMutex.zero : SyncMutex := ⟨false, 0⟩

/-- The method sync.Mutex.Lock. On a held mutex the caller blocks: the call does not return
(none) until some other caller releases the mutex. -/
def SyncMutex.Lock (m : SyncMutex) : Option SyncMutex :=
  if m.locked then none else some { m with locked := true }

/-- The method sync.Mutex.Unlock. On a mutex that is not held the Go runtime stops the program
with a fatal error (none). -/
def SyncMutex.Unlock (m : SyncMutex) : Option SyncMutex :=
  if m.locked then some { locked := false, unlocks := m.unlocks + 1 } else none

/-! ## The external collaborators: context, Redis pool, redsync -/

/-- A Go context.Context: the background context or a context made by the caller. -/
inductive Context where
  | background
  | caller (id : Nat)
deriving DecidableEq, Repr

/-- The interface redis.Conn of redsync, restricted to the methods the adapter calls, over a
store whose state has type σ. A call returns its Go results and the state of the store after
it. -/
structure Conn (σ : Type) where
  /-- The method Get(name) (string, error). -/
  Get : GoString → σ → (GoString × Option GoError) × σ
  /-- The method Set(name, value) (bool, error). -/
  Set : GoString → GoString → σ → (Bool × Option GoError) × σ

/-- The interface redis.Pool of redsync: Get(ctx) (Conn, error), which either fails with an
error or hands out a connection. -/
structure Pool (σ : Type) where
  /-- The method Get(ctx) (Conn, error). -/
  Get : Context → σ → Except GoError (Conn σ)

/-- The struct redsync.Redsync: the pools handed to redsync.New (a nil pool is none). -/
structure Redsync (σ : Type) where
  /-- The pools of Redis connections. -/
  pools : List (Option (Pool σ))

/-- The function redsync.New(pools...). -/
def redsyncNew {σ : Type} (pool : Option (Pool σ)) : Redsync σ := ⟨[pool]⟩

/-- The handle redsync.Mutex behind a pointer: addr is the identity of the allocated object,
name the key of the lock in the store, expiry its lease in nanoseconds. -/
structure RedsyncMutex where
  /-- The identity of the object (its address). -/
  addr : Nat
  /-- The key of the lock in the store. -/
  name : GoString
  /-- The lease of the lock, in nanoseconds. -/
  expiry : Nat
deriving DecidableEq, Repr

/-- The constant time.Second, in nanoseconds. -/
def Second : Nat := 1000000000

/-- The call redsync.NewMutex(name, redsync.WithExpiry(expiry)), allocating at address addr. -/
def NewMutex (addr : Nat) (name : GoString) (expiry : Nat) : RedsyncMutex :=
  { addr := addr, name := name, expiry := expiry }

/-! ## goll_redis.go -/

/-- The struct Config. A nil Pool is none. -/
structure Config (σ : Type) where
  /-- The namespace of the adapter. -/
  MutexName : GoString
  /-- The pool of Redis connections. -/
  Pool : Option (Pool σ)

/-- The struct redisSyncAdapter. The Go map mutexMap is an association list; heap is a ghost
counter of the lock handles allocated so far, which gives each handle its identity. -/
structure redisSyncAdapter (σ : Type) where
  /-- The pool of Redis connections. -/
  pool : Pool σ
  /-- The redsync factory of distributed locks. -/
  redsync : Redsync σ
  /-- The process-local guard. -/
  localMutext : SyncMutex
  /-- The cache of lock handles by tenant key. -/
  mutexMap : List (GoString × RedsyncMutex)
  /-- The namespace. -/
  mutexName : GoString
  /-- Ghost: the number of lock handles allocated so far. -/
  heap : Nat

/-- The Go map assignment m[k] = v. -/
def mapAssign (m : List (GoString × RedsyncMutex)) (k : GoString) (v : RedsyncMutex) :
    List (GoString × RedsyncMutex) :=
  (k, v) :: m.filter (fun e => e.1 ≠ k)

/-- The function NewRedisSyncAdapter: the pair (adapter, error) it returns. -/
def NewRedisSyncAdapter {σ : Type} (config : Config σ) :
    Option (redisSyncAdapter σ) × Option GoError :=
  let rs := redsyncNew config.Pool
  if (TrimSpace config.MutexName).length < 1 then
    (none, some (errorsNew "invalid mutext name, should be non-blank"))
  else
    match config.Pool with
    | none => (none, some (errorsNew "a Redis pool is required"))
    | some pool =>
      let mutexName := config.MutexName
      (some { pool := pool, redsync := rs, localMutext := SyncMutex.zero, mutexMap := [],
              mutexName := mutexName, heap := 0 }, none)

/-- The method effectiveKey: fmt.Sprintf("%s.%s.%s", mutexName, QueryEscape(tenantKey), postfix). -/
def effectiveKey {σ : Type} (inst : redisSyncAdapter σ) (tenantKey : GoString)
    (suffix : GoString) : GoString :=
  inst.mutexName ++ lit "." ++ QueryEscape tenantKey ++ lit "." ++ suffix

/-- The method tenantMutex: the lock handle of a tenant key and the adapter after the call. -/
def tenantMutex {σ : Type} (inst : redisSyncAdapter σ) (tenantKey : GoString) :
    RedsyncMutex × redisSyncAdapter σ :=
  match inst.mutexMap.lookup tenantKey with
  | some existing => (existing, inst)
  | none =>
    let mutex := NewMutex inst.heap (effectiveKey inst tenantKey (lit "lock")) (5 * Second)
    (mutex, { inst with mutexMap := mapAssign inst.mutexMap tenantKey mutex,
                        heap := inst.heap + 1 })

/-- Line 70 of Lock: instance.localMutext.Lock(). -/
def lockGuard {σ : Type} (inst : redisSyncAdapter σ) : Option (redisSyncAdapter σ) :=
  match inst.localMutext.Lock with
  | none => none
  | some m => some { inst with localMutext := m }

/-- The release of the guard, instance.localMutext.Unlock(). -/
def unlockGuard {σ : Type} (inst : redisSyncAdapter σ) : Option (redisSyncAdapter σ) :=
  match inst.localMutext.Unlock with
  | none => none
  | some m => some { inst with localMutext := m }

/-- Lines 73 to 76 of Lock: release the guard when the distributed Lock failed, return err. -/
def lockFinish {σ : Type} (inst : redisSyncAdapter σ) (err : Option GoError) :
    Option (Option GoError × redisSyncAdapter σ) :=
  match err with
  | some e =>
    match unlockGuard inst with
    | none => none
    | some inst1 => some (some e, inst1)
  | none => some (none, inst)

/-- The method Lock. The argument lockResult is what the Lock() of the distributed lock handle
returns. The result is none when the call does not return. -/
def Lock {σ : Type} (inst : redisSyncAdapter σ) (_ctx : Context) (tenantKey : GoString)
    (lockResult : Option GoError) : Option (Option GoError × redisSyncAdapter σ) :=
  match lockGuard inst with
  | none => none
  | some inst1 =>
    let (_mutex, inst2) := tenantMutex inst1 tenantKey
    let err := lockResult
    lockFinish inst2 err

/-- The deferred call of Unlock, run when Unlock returns err. -/
def unlockFinish {σ : Type} (inst : redisSyncAdapter σ) (err : Option GoError) :
    Option (Option GoError × redisSyncAdapter σ) :=
  match unlockGuard inst with
  | none => none
  | some inst1 => some (err, inst1)

/-- The method Unlock. The argument unlockResult is the pair (ok, err) that the Unlock() of the
distributed lock handle returns. The result is none when the program stops with a fatal
error. -/
def Unlock {σ : Type} (inst : redisSyncAdapter σ) (_ctx : Context) (tenantKey : GoString)
    (unlockResult : Bool × Option GoError) : Option (Option GoError × redisSyncAdapter σ) :=
  let (_mutex, inst1) := tenantMutex inst tenantKey
  let (_, err) := unlockResult
  unlockFinish inst1 err

/-- The method Fetch, run on a store in state st: the pair (string, error) it returns and the
store after the call. -/
def Fetch {σ : Type} (inst : redisSyncAdapter σ) (_ctx : Context) (_tenantKey : GoString)
    (st : σ) : (GoString × Option GoError) × σ :=
  let c := Context.background
  match inst.pool.Get c st with
  | .error err => (([], some err), st)
  | .ok conn =>
    let ((val, err), st1) := conn.Get (inst.mutexName ++ lit ".data") st
    if err = none ∧ val = [] then (([], none), st1)
    else if err ≠ none then (([], err), st1)
    else ((val, none), st1)

/-- The method Write, run on a store in state st: the error it returns and the store after the
call. -/
def Write {σ : Type} (inst : redisSyncAdapter σ) (_ctx : Context) (_tenantKey : GoString)
    (status : GoString) (st : σ) : Option GoError × σ :=
  let c := Context.background
  match inst.pool.Get c st with
  | .error err => (some err, st)
  | .ok conn =>
    let ((ok, err), st1) := conn.Set (inst.mutexName ++ lit ".data") status st
    if err ≠ none then (err, st1)
    else if ¬ ok then (some (errorsNew "write to server failed"), st1)
    else (err, st1)

/-! ## Sequences of calls on one adapter -/

/-- One completed call on the adapter, with the results of the external lock it met. -/
inductive Op where
  | lock (ctx : Context) (tenantKey : GoString) (lockResult : Option GoError)
  | unlock (ctx : Context) (tenantKey : GoString) (unlockResult : Bool × Option GoError)
  | fetch (ctx : Context) (tenantKey : GoString)
  | write (ctx : Context) (tenantKey : GoString) (status : GoString)
deriving DecidableEq, Repr

/-- The adapter and the store after one call; none when the call does not return. -/
def applyOp {σ : Type} (op : Op) (s : redisSyncAdapter σ × σ) : Option (redisSyncAdapter σ × σ) :=
  match op with
  | .lock ctx t r =>
    match Lock s.1 ctx t r with
    | none => none
    | some res => some (res.2, s.2)
  | .unlock ctx t r =>
    match Unlock s.1 ctx t r with
    | none => none
    | some res => some (res.2, s.2)
  | .fetch ctx t => some (s.1, (Fetch s.1 ctx t s.2).2)
  | .write ctx t v => some (s.1, (Write s.1 ctx t v s.2).2)

/-- The adapter and the store after a sequence of calls, each started after the one before it
returned; none when one of them does not return. -/
def runOps {σ : Type} : List Op → redisSyncAdapter σ × σ → Option (redisSyncAdapter σ × σ)
  | [], s => some s
  | op :: ops, s =>
    match applyOp op s with
    | none => none
    | some s1 => runOps ops s1

/-! ## Callers interleaved on one adapter -/

/-- Where a caller (a goroutine) stands with respect to the adapter. -/
inductive Pc where
  /-- Outside every call, and not between a successful Lock and its Unlock. -/
  | idle
  /-- Inside Lock, before line 70 (waiting for the guard). -/
  | lockCalled (tenantKey : GoString)
  /-- Inside Lock, after line 70 and before line 72. -/
  | lockGuarded (tenantKey : GoString)
  /-- Inside Lock, after line 72 with the result of the distributed Lock. -/
  | lockAttempted (tenantKey : GoString) (err : Option GoError)
  /-- Lock has returned nil and Unlock is not yet called. -/
  | critical (tenantKey : GoString)
  /-- Inside Unlock, before line 122. -/
  | unlockCalled (tenantKey : GoString)
  /-- Inside Unlock, after line 122; the deferred release is still to run. -/
  | unlockAttempted (err : Option GoError)
deriving DecidableEq, Repr

/-- One atomic move of one caller. -/
inductive Act where
  /-- The caller calls Lock. -/
  | callLock (tenantKey : GoString)
  /-- Line 70 returns: the guard is acquired. -/
  | guardAcquire
  /-- Line 72: the handle is resolved and the distributed Lock returns lockResult. -/
  | lockAttempt (lockResult : Option GoError)
  /-- Lines 73 to 76: Lock returns. -/
  | lockReturn
  /-- The caller calls Unlock, with any tenant key. -/
  | callUnlock (tenantKey : GoString)
  /-- Line 122: the handle is resolved and the distributed Unlock returns unlockResult. -/
  | unlockAttempt (unlockResult : Bool × Option GoError)
  /-- The deferred release runs and Unlock returns. -/
  | unlockReturn
deriving DecidableEq, Repr

/-- One adapter shared by callers numbered by the natural numbers. -/
structure Sys (σ : Type) where
  /-- The shared adapter. -/
  adapter : redisSyncAdapter σ
  /-- Where each caller stands. -/
  pc : Nat → Pc

/-- Caller tid is moved to the position p. -/
def setPc (pc : Nat → Pc) (tid : Nat) (p : Pc) : Nat → Pc :=
  fun i => if i = tid then p else pc i

/-- One move of caller tid; none when the caller cannot make this move in this state (in
particular a caller waiting for a held guard cannot acquire it, and Unlock is called only by a
caller whose own Lock has returned nil). -/
def step {σ : Type} (sys : Sys σ) (tid : Nat) (act : Act) : Option (Sys σ) :=
  match sys.pc tid, act with
  | .idle, .callLock t => some { sys with pc := setPc sys.pc tid (.lockCalled t) }
  | .lockCalled t, .guardAcquire =>
    match lockGuard sys.adapter with
    | none => none
    | some a => some { adapter := a, pc := setPc sys.pc tid (.lockGuarded t) }
  | .lockGuarded t, .lockAttempt r =>
    some { adapter := (tenantMutex sys.adapter t).2, pc := setPc sys.pc tid (.lockAttempted t r) }
  | .lockAttempted t err, .lockReturn =>
    match lockFinish sys.adapter err with
    | none => none
    | some (res, a) =>
      some { adapter := a, pc := setPc sys.pc tid (if res = none then .critical t else .idle) }
  | .critical _, .callUnlock t => some { sys with pc := setPc sys.pc tid (.unlockCalled t) }
  | .unlockCalled t, .unlockAttempt r =>
    some { adapter := (tenantMutex sys.adapter t).2, pc := setPc sys.pc tid (.unlockAttempted r.2) }
  | .unlockAttempted err, .unlockReturn =>
    match unlockFinish sys.adapter err with
    | none => none
    | some (_, a) => some { adapter := a, pc := setPc sys.pc tid .idle }
  | _, _ => none

/-- The state after a schedule of moves; none when some move cannot be made. -/
def runSchedule {σ : Type} : List (Nat × Act) → Sys σ → Option (Sys σ)
  | [], sys => some sys
  | (tid, act) :: rest, sys =>
    match step sys tid act with
    | none => none
    | some sys1 => runSchedule rest sys1

/-- The initial state: every caller is idle. -/
def initSys {σ : Type} (a : redisSyncAdapter σ) : Sys σ := { adapter := a, pc := fun _ => .idle }

/-- The caller is between the return of a successful Lock and its call of Unlock. -/
def Pc.inSpan : Pc → Bool
  | .critical _ => true
  | _ => false

/-- The caller is executing Unlock and has not yet released the guard. -/
def Pc.inUnlock : Pc → Bool
  | .unlockCalled _ => true
  | .unlockAttempted _ => true
  | _ => false

/-- The caller has acquired the guard in Lock and not yet released it. -/
def Pc.holdsGuard : Pc → Bool
  | .lockGuarded _ => true
  | .lockAttempted _ _ => true
  | .critical _ => true
  | .unlockCalled _ => true
  | .unlockAttempted _ => true
  | _ => false

/-! ## The store as a map, and the shape of escaped text -/

/-- A store that is a map from keys to strings. -/
abbrev MapStore := List (GoString × GoString)

/-- The connection to a map store: Get returns the value of the key, the empty string for an
absent key, and Set binds the key; both succeed. -/
def mapConn : Conn MapStore where
  Get := fun key st => (((st.lookup key).getD [], none), st)
  Set := fun key value st => ((true, none), (key, value) :: st.filter (fun e => e.1 ≠ key))

/-- The pool of a map store, which always hands out a connection. -/
def mapPool : Pool MapStore where
  Get := fun _ _ => .ok mapConn

/-- An unreserved byte: an ASCII letter, a digit, or one of '-', '_', '.', '~'. -/
def isUnreserved (c : Fin 256) : Bool :=
  (97 ≤ c.val && c.val ≤ 122) || (65 ≤ c.val && c.val ≤ 90) || (48 ≤ c.val && c.val ≤ 57) ||
    c.val == 45 || c.val == 95 || c.val == 46 || c.val == 126

/-- An uppercase hexadecimal digit. -/
def isUpperHex (c : Fin 256) : Bool :=
  (48 ≤ c.val && c.val ≤ 57) || (65 ≤ c.val && c.val ≤ 70)

/-- The scan behind isEscaped; pending is the number of hexadecimal digits still owed to the
last '%'. -/
def isEscapedFrom : Nat → GoString → Bool
  | 0, [] => true
  | _ + 1, [] => false
  | 0, c :: s =>
    if c = 37 then isEscapedFrom 2 s else (isUnreserved c || c == 43) && isEscapedFrom 0 s
  | pending + 1, c :: s => isUpperHex c && isEscapedFrom pending s

/-- Text in which every byte is unreserved, a '+', or part of a '%' followed by two uppercase
hexadecimal digits. -/
def isEscaped (s : GoString) : Bool := isEscapedFrom 0 s

/-- The adapter that NewRedisSyncAdapter builds over the map store for a namespace. -/
def mapAdapter (ns : GoString) : redisSyncAdapter MapStore :=
  { pool := mapPool, redsync := redsyncNew (some mapPool), localMutext := SyncMutex.zero,
    mutexMap := [], mutexName := ns, heap := 0 }

/-! ## What the calls keep -/

/-- What every call keeps: the namespace, the entries of the cache, and the key carried by each
cached handle. -/
structure Keeps {σ : Type} (a b : redisSyncAdapter σ) : Prop where
  /-- The namespace is the same. -/
  name : b.mutexName = a.mutexName
  /-- Every entry of the cache is still there, with the same handle. -/
  entries : ∀ k h, a.mutexMap.lookup k = some h → b.mutexMap.lookup k = some h
  /-- Cached handles carry the lock key of their tenant key. -/
  keys : (∀ k h, a.mutexMap.lookup k = some h → h.name = effectiveKey a k (lit "lock")) →
    ∀ k h, b.mutexMap.lookup k = some h → h.name = effectiveKey b k (lit "lock")

/-- The invariant of the interleaved callers: at most one caller holds the guard, and nobody
holds it while it is free. -/
def guardInv {σ : Type} (sys : Sys σ) : Prop :=
  (∀ i j, (sys.pc i).holdsGuard = true → (sys.pc j).holdsGuard = true → i = j) ∧
  (sys.adapter.localMutext.locked = false → ∀ i, (sys.pc i).holdsGuard = false)

/-- A schedule of two callers: caller 0 calls Lock for tenant "a", caller 1 calls Lock for
tenant "b", then caller 0 acquires the guard, locks the distributed lock and returns. -/
def twoCallers : List (Nat × Act) :=
  [(0, .callLock (lit "a")), (1, .callLock (lit "b")), (0, .guardAcquire),
   (0, .lockAttempt none), (0, .lockReturn)]

/-- The state that the schedule twoCallers reaches from the adapter of namespace "ns". -/
def twoCallersEnd : Sys MapStore :=
  { adapter :=
      { mapAdapter (lit "ns") with
          localMutext := ⟨true, 0⟩
          mutexMap := [(lit "a", NewMutex 0 (lit "ns.a.lock") (5 * Second))]
          heap := 1 }
    pc := setPc (setPc (setPc (setPc (setPc (fun _ => .idle) 0 (.lockCalled (lit "a")))
      1 (.lockCalled (lit "b"))) 0 (.lockGuarded (lit "a"))) 0 (.lockAttempted (lit "a") none))
      0 (.critical (lit "a")) }

/-! ## Theorems -/

/-! ### QueryEscape -/

theorem shouldEscape_space : shouldEscape 32 = true := by decide
theorem shouldEscape_plus : shouldEscape 43 = true := by decide
theorem shouldEscape_percent : shouldEscape 37 = true := by decide

theorem upperhex_inj : ∀ a b : Fin 16, upperhex a.val = upperhex b.val → a = b := by decide

theorem byte_of_nibbles (c d : Fin 256) (h1 : upperhex (c.val >>> 4) = upperhex (d.val >>> 4))
    (h2 : upperhex (c.val &&& 15) = upperhex (d.val &&& 15)) : c = d := by
  have hc1 : c.val >>> 4 = c.val / 16 := by simp [Nat.shiftRight_eq_div_pow]
  have hd1 : d.val >>> 4 = d.val / 16 := by simp [Nat.shiftRight_eq_div_pow]
  have hc2 : c.val &&& 15 = c.val % 16 := Nat.and_pow_two_sub_one_eq_mod c.val 4
  have hd2 : d.val &&& 15 = d.val % 16 := Nat.and_pow_two_sub_one_eq_mod d.val 4
  rw [hc1, hd1] at h1
  rw [hc2, hd2] at h2
  have e1 := upperhex_inj ⟨c.val / 16, by omega⟩ ⟨d.val / 16, by omega⟩ h1
  have e2 := upperhex_inj ⟨c.val % 16, Nat.mod_lt _ (by norm_num)⟩ ⟨d.val % 16, Nat.mod_lt _ (by norm_num)⟩ h2
  have e1v : c.val / 16 = d.val / 16 := by simpa using congrArg Fin.val e1
  have e2v : c.val % 16 = d.val % 16 := by simpa using congrArg Fin.val e2
  apply Fin.ext
  omega

theorem escapeLoop_injective : ∀ s1 s2 : GoString, escapeLoop s1 = escapeLoop s2 → s1 = s2 := by
  intro s1
  induction s1 with
  | nil =>
    intro s2 h
    cases s2 with
    | nil => rfl
    | cons d s2 =>
      simp only [escapeLoop] at h
      split_ifs at h
  | cons c s1 ih =>
    intro s2 h
    cases s2 with
    | nil =>
      simp only [escapeLoop] at h
      split_ifs at h
    | cons d s2 =>
      simp only [escapeLoop] at h
      by_cases hc : c = 32
      · by_cases hd : d = 32
        · simp only [hc, hd, if_true, List.cons.injEq, true_and] at h
          rw [hc, hd, ih s2 h]
        · rw [if_pos hc, if_neg hd] at h
          by_cases hd2 : shouldEscape d = true
          · rw [if_pos hd2] at h
            simp at h
          · rw [if_neg hd2] at h
            simp only [List.cons.injEq] at h
            exact absurd (h.1 ▸ shouldEscape_plus) hd2
      · rw [if_neg hc] at h
        by_cases hc2 : shouldEscape c = true
        · rw [if_pos hc2] at h
          by_cases hd : d = 32
          · rw [if_pos hd] at h
            simp at h
          · rw [if_neg hd] at h
            by_cases hd2 : shouldEscape d = true
            · rw [if_pos hd2] at h
              simp only [List.cons.injEq, true_and] at h
              rw [byte_of_nibbles c d h.1 h.2.1, ih s2 h.2.2]
            · rw [if_neg hd2] at h
              simp only [List.cons.injEq] at h
              exact absurd (h.1 ▸ shouldEscape_percent) hd2
        · rw [if_neg hc2] at h
          by_cases hd : d = 32
          · rw [if_pos hd] at h
            simp only [List.cons.injEq] at h
            exact absurd (h.1 ▸ shouldEscape_plus) hc2
          · rw [if_neg hd] at h
            by_cases hd2 : shouldEscape d = true
            · rw [if_pos hd2] at h
              simp only [List.cons.injEq] at h
              exact absurd (h.1 ▸ shouldEscape_percent) hc2
            · rw [if_neg hd2] at h
              simp only [List.cons.injEq] at h
              rw [h.1, ih s2 h.2]

theorem escapeLoop_of_hexCount_zero : ∀ s : GoString, (escapeCounts s).2 = 0 →
    escapeLoop s = s.map (fun c => if c = 32 then 43 else c) := by
  intro s
  induction s with
  | nil => intro _; rfl
  | cons c s ih =>
    intro h
    simp only [escapeCounts] at h
    simp only [escapeLoop, List.map_cons]
    by_cases hc : c = 32
    · rw [if_pos hc, if_pos hc]
      rw [hc, shouldEscape_space] at h
      simp only [if_true] at h
      rw [ih h]
    · rw [if_neg hc, if_neg hc]
      by_cases hc2 : shouldEscape c = true
      · rw [if_pos hc2, if_neg hc] at h
        simp at h
      · rw [if_neg hc2] at h
        rw [if_neg hc2, ih h]

theorem map_of_spaceCount_zero : ∀ s : GoString, (escapeCounts s).1 = 0 →
    s.map (fun c => if c = 32 then (43 : Fin 256) else c) = s := by
  intro s
  induction s with
  | nil => intro _; rfl
  | cons c s ih =>
    intro h
    simp only [escapeCounts] at h
    simp only [List.map_cons]
    by_cases hc : c = 32
    · rw [hc, shouldEscape_space] at h
      simp at h
    · rw [if_neg hc]
      by_cases hc2 : shouldEscape c = true
      · rw [if_pos hc2, if_neg hc] at h
        rw [ih h]
      · rw [if_neg hc2] at h
        rw [ih h]

theorem escape_eq_escapeLoop (s : GoString) : escape s = escapeLoop s := by
  unfold escape
  rcases hcnt : escapeCounts s with ⟨sp, hx⟩
  simp only
  have h1 : (escapeCounts s).1 = sp := by rw [hcnt]
  have h2 : (escapeCounts s).2 = hx := by rw [hcnt]
  by_cases hhx : hx = 0
  · subst hhx
    by_cases hsp : sp = 0
    · subst hsp
      simp only [and_self, if_true]
      rw [escapeLoop_of_hexCount_zero s h2, map_of_spaceCount_zero s h1]
    · simp only [hsp, false_and, if_false, if_true]
      rw [escapeLoop_of_hexCount_zero s h2]
  · simp only [hhx, and_false, if_false]

theorem QueryEscape_injective (s1 s2 : GoString) (h : QueryEscape s1 = QueryEscape s2) : s1 = s2 := by
  unfold QueryEscape at h
  rw [escape_eq_escapeLoop, escape_eq_escapeLoop] at h
  exact escapeLoop_injective s1 s2 h

set_option maxRecDepth 100000 in
theorem shouldEscape_eq_not_isUnreserved : ∀ c : Fin 256, shouldEscape c = !isUnreserved c := by
  decide

theorem isUpperHex_upperhex : ∀ n : Fin 16, isUpperHex (upperhex n.val) = true := by decide

theorem isEscapedFrom_escapeLoop : ∀ s : GoString, isEscapedFrom 0 (escapeLoop s) = true := by
  intro s
  induction s with
  | nil => rfl
  | cons c s ih =>
    simp only [escapeLoop]
    by_cases hc : c = 32
    · rw [if_pos hc, isEscapedFrom, if_neg (by decide), ih]
      rfl
    · rw [if_neg hc]
      by_cases hc2 : shouldEscape c = true
      · rw [if_pos hc2]
        have h1 : c.val >>> 4 < 16 := by
          have : c.val >>> 4 = c.val / 16 := by simp [Nat.shiftRight_eq_div_pow]
          omega
        have h2 : c.val &&& 15 < 16 := by
          have : c.val &&& 15 = c.val % 16 := Nat.and_pow_two_sub_one_eq_mod c.val 4
          omega
        have e1 := isUpperHex_upperhex ⟨c.val >>> 4, h1⟩
        have e2 := isUpperHex_upperhex ⟨c.val &&& 15, h2⟩
        rw [isEscapedFrom, if_pos rfl, isEscapedFrom, isEscapedFrom]
        simp only [e1, e2, ih, Bool.and_self]
      · rw [if_neg hc2]
        have hu : isUnreserved c = true := by
          have := shouldEscape_eq_not_isUnreserved c
          cases hsc : shouldEscape c
          · rw [hsc] at this
            simpa using this
          · exact absurd hsc hc2
        have h37 : c ≠ 37 := by
          intro h
          rw [h] at hc2
          exact hc2 shouldEscape_percent
        rw [isEscapedFrom, if_neg h37, hu, ih]
        rfl

theorem mem_escapeLoop : ∀ (s : GoString), ∀ c ∈ escapeLoop s,
    isUnreserved c = true ∨ c = 43 ∨ c = 37 := by
  intro s
  induction s with
  | nil => intro c hc; simp [escapeLoop] at hc
  | cons d s ih =>
    intro c hc
    simp only [escapeLoop] at hc
    by_cases hd : d = 32
    · rw [if_pos hd, List.mem_cons] at hc
      rcases hc with hc | hc
      · exact Or.inr (Or.inl hc)
      · exact ih c hc
    · rw [if_neg hd] at hc
      by_cases hd2 : shouldEscape d = true
      · rw [if_pos hd2] at hc
        have h1 : d.val >>> 4 < 16 := by
          have : d.val >>> 4 = d.val / 16 := by simp [Nat.shiftRight_eq_div_pow]
          omega
        have h2 : d.val &&& 15 < 16 := by
          have : d.val &&& 15 = d.val % 16 := Nat.and_pow_two_sub_one_eq_mod d.val 4
          omega
        have hex : ∀ n : Fin 16, isUnreserved (upperhex n.val) = true := by decide
        have e1 := hex ⟨d.val >>> 4, h1⟩
        have e2 := hex ⟨d.val &&& 15, h2⟩
        simp only [List.mem_cons] at hc
        rcases hc with hc | hc | hc | hc
        · exact Or.inr (Or.inr hc)
        · rw [hc]; exact Or.inl e1
        · rw [hc]; exact Or.inl e2
        · exact ih c hc
      · rw [if_neg hd2, List.mem_cons] at hc
        rcases hc with hc | hc
        · left
          rw [hc]
          have := shouldEscape_eq_not_isUnreserved d
          cases hsc : shouldEscape d
          · rw [hsc] at this
            simpa using this
          · exact absurd hsc hd2
        · exact ih c hc

theorem upperhex_ne_dot : ∀ n : Fin 16, upperhex n.val ≠ 46 := by decide

theorem shouldEscape_dot : shouldEscape 46 = false := by decide

theorem escapeLoop_append : ∀ u v : GoString, escapeLoop (u ++ v) = escapeLoop u ++ escapeLoop v := by
  intro u v
  induction u with
  | nil => rfl
  | cons c u ih =>
    show escapeLoop (c :: (u ++ v)) = escapeLoop (c :: u) ++ escapeLoop v
    rw [escapeLoop, escapeLoop, ih]
    split_ifs <;> simp

theorem escapeLoop_dot (v : GoString) : escapeLoop (46 :: v) = 46 :: escapeLoop v := by
  rw [escapeLoop, if_neg (by decide), if_neg (by decide)]

/-- Escaped text that contains a '.' splits there: the '.' is the escape of a '.' of the input,
and the text before it and the text after it are the escapes of the input before and after. -/
theorem escapeLoop_split_dot : ∀ (t a rest : GoString), escapeLoop t = a ++ 46 :: rest →
    ∃ u v, t = u ++ 46 :: v ∧ a = escapeLoop u ∧ rest = escapeLoop v := by
  intro t
  induction t with
  | nil =>
    intro a rest h
    simp [escapeLoop] at h
  | cons c t ih =>
    intro a rest h
    have h1 : c.val >>> 4 < 16 := by
      have : c.val >>> 4 = c.val / 16 := by simp [Nat.shiftRight_eq_div_pow]
      omega
    have h2 : c.val &&& 15 < 16 := by
      have : c.val &&& 15 = c.val % 16 := Nat.and_pow_two_sub_one_eq_mod c.val 4
      omega
    have e1 := upperhex_ne_dot ⟨c.val >>> 4, h1⟩
    have e2 := upperhex_ne_dot ⟨c.val &&& 15, h2⟩
    simp only at e1 e2
    cases a with
    | nil =>
      simp only [List.nil_append] at h
      simp only [escapeLoop] at h
      by_cases hc : c = 32
      · rw [if_pos hc] at h
        simp at h
      · rw [if_neg hc] at h
        by_cases hc2 : shouldEscape c = true
        · rw [if_pos hc2] at h
          simp at h
        · rw [if_neg hc2] at h
          simp only [List.cons.injEq] at h
          exact ⟨[], t, by rw [h.1]; rfl, rfl, h.2.symm⟩
    | cons x a =>
      simp only [List.cons_append] at h
      simp only [escapeLoop] at h
      by_cases hc : c = 32
      · rw [if_pos hc] at h
        simp only [List.cons.injEq] at h
        obtain ⟨u, v, hu, ha, hv⟩ := ih a rest h.2
        refine ⟨c :: u, v, by rw [hu]; rfl, ?_, hv⟩
        rw [escapeLoop, if_pos hc, ← ha, ← h.1]
      · rw [if_neg hc] at h
        by_cases hc2 : shouldEscape c = true
        · rw [if_pos hc2] at h
          simp only [List.cons.injEq] at h
          obtain ⟨hx, h⟩ := h
          cases a with
          | nil =>
            simp only [List.nil_append, List.cons.injEq] at h
            exact absurd h.1 e1
          | cons y a =>
            simp only [List.cons_append, List.cons.injEq] at h
            obtain ⟨hy, h⟩ := h
            cases a with
            | nil =>
              simp only [List.nil_append, List.cons.injEq] at h
              exact absurd h.1 e2
            | cons z a =>
              simp only [List.cons_append, List.cons.injEq] at h
              obtain ⟨hz, h⟩ := h
              obtain ⟨u, v, hu, ha, hv⟩ := ih a rest h
              refine ⟨c :: u, v, by rw [hu]; rfl, ?_, hv⟩
              rw [escapeLoop, if_neg hc, if_pos hc2, ← ha, ← hx, ← hy, ← hz]
        · rw [if_neg hc2] at h
          simp only [List.cons.injEq] at h
          obtain ⟨u, v, hu, ha, hv⟩ := ih a rest h.2
          refine ⟨c :: u, v, by rw [hu]; rfl, ?_, hv⟩
          rw [escapeLoop, if_neg hc, if_neg hc2, ← ha, ← h.1]

theorem QueryEscape_append_dot (u v : GoString) :
    QueryEscape (u ++ 46 :: v) = QueryEscape u ++ 46 :: QueryEscape v := by
  unfold QueryEscape
  rw [escape_eq_escapeLoop, escape_eq_escapeLoop, escape_eq_escapeLoop, escapeLoop_append,
    escapeLoop_dot]

theorem QueryEscape_split_dot (t1 t2 a : GoString)
    (h : QueryEscape t1 = a ++ 46 :: QueryEscape t2) :
    ∃ u, a = QueryEscape u ∧ t1 = u ++ 46 :: t2 := by
  unfold QueryEscape at h ⊢
  rw [escape_eq_escapeLoop, escape_eq_escapeLoop] at h
  obtain ⟨u, v, hu, ha, hv⟩ := escapeLoop_split_dot t1 a (escapeLoop t2) h
  refine ⟨u, by rw [escape_eq_escapeLoop]; exact ha, ?_⟩
  rw [hu, escapeLoop_injective t2 v hv]

theorem space_not_mem_QueryEscape (u : GoString) : (32 : Fin 256) ∉ QueryEscape u := by
  intro h
  unfold QueryEscape at h
  rw [escape_eq_escapeLoop] at h
  rcases mem_escapeLoop u 32 h with h1 | h1 | h1
  · exact absurd h1 (by decide)
  · exact absurd h1 (by decide)
  · exact absurd h1 (by decide)

/-! ### Derived store keys -/

theorem lit_dot : lit "." = [46] := by decide

theorem lit_lock : lit "lock" = [108, 111, 99, 107] := by decide

theorem lit_dot_lock : lit ".lock" = [46, 108, 111, 99, 107] := by decide

theorem lit_dot_data : lit ".data" = [46, 100, 97, 116, 97] := by decide

theorem effectiveKey_lock {σ : Type} (inst : redisSyncAdapter σ) (t : GoString) :
    effectiveKey inst t (lit "lock") = (inst.mutexName ++ lit ".") ++ QueryEscape t ++ lit ".lock" := by
  simp [effectiveKey, lit_dot, lit_lock, lit_dot_lock]

/-- Two lock keys are equal only when namespace and tenant key are the same, or when one
namespace is the other followed by "." and escaped text, the tenant key of the shorter
namespace supplying that text. -/
theorem lockKey_eq_cases (n1 n2 t1 t2 : GoString)
    (h : (n1 ++ lit ".") ++ QueryEscape t1 ++ lit ".lock"
      = (n2 ++ lit ".") ++ QueryEscape t2 ++ lit ".lock") :
    (n1 = n2 ∧ t1 = t2) ∨
    (∃ u, n2 = n1 ++ lit "." ++ QueryEscape u ∧ t1 = u ++ lit "." ++ t2) ∨
    (∃ u, n1 = n2 ++ lit "." ++ QueryEscape u ∧ t2 = u ++ lit "." ++ t1) := by
  have h0 : n1 ++ (lit "." ++ (QueryEscape t1 ++ lit ".lock")) =
      n2 ++ (lit "." ++ (QueryEscape t2 ++ lit ".lock")) := by
    simpa [List.append_assoc] using h
  rcases List.append_eq_append_iff.1 h0 with ⟨a, ha, hb⟩ | ⟨c, hc, hd⟩
  · cases a with
    | nil =>
      simp only [List.append_nil] at ha
      simp only [List.nil_append] at hb
      have := List.append_cancel_left hb
      have := List.append_cancel_right this
      exact Or.inl ⟨ha.symm, QueryEscape_injective _ _ this⟩
    | cons x a =>
      rw [lit_dot] at hb
      simp only [List.cons_append, List.nil_append, List.cons.injEq] at hb
      obtain ⟨hx, hb⟩ := hb
      have hb1 : QueryEscape t1 ++ lit ".lock" = (a ++ 46 :: QueryEscape t2) ++ lit ".lock" := by
        rw [hb]
        simp
      obtain ⟨u, hu, ht⟩ := QueryEscape_split_dot t1 t2 a (List.append_cancel_right hb1)
      refine Or.inr (Or.inl ⟨u, ?_, ?_⟩)
      · rw [ha, ← hx, ← hu, lit_dot]
        simp
      · rw [ht, lit_dot]
        simp
  · cases c with
    | nil =>
      simp only [List.append_nil] at hc
      simp only [List.nil_append] at hd
      have := List.append_cancel_left hd
      have := List.append_cancel_right this
      exact Or.inl ⟨hc, (QueryEscape_injective _ _ this).symm⟩
    | cons x c =>
      rw [lit_dot] at hd
      simp only [List.cons_append, List.nil_append, List.cons.injEq] at hd
      obtain ⟨hx, hd⟩ := hd
      have hd1 : QueryEscape t2 ++ lit ".lock" = (c ++ 46 :: QueryEscape t1) ++ lit ".lock" := by
        rw [hd]
        simp
      obtain ⟨u, hu, ht⟩ := QueryEscape_split_dot t2 t1 c (List.append_cancel_right hd1)
      refine Or.inr (Or.inr ⟨u, ?_, ?_⟩)
      · rw [hc, ← hx, ← hu, lit_dot]
        simp
      · rw [ht, lit_dot]
        simp

/-- A namespace that is another one followed by "." and escaped text shares lock keys with
it. -/
theorem lockKey_eq_of_extension (n1 n2 u t : GoString)
    (h : n2 = n1 ++ lit "." ++ QueryEscape u) :
    (n1 ++ lit ".") ++ QueryEscape (u ++ lit "." ++ t) ++ lit ".lock"
      = (n2 ++ lit ".") ++ QueryEscape t ++ lit ".lock" := by
  have e : u ++ lit "." ++ t = u ++ 46 :: t := by
    rw [lit_dot]
    simp
  rw [h, e, QueryEscape_append_dot, lit_dot]
  simp

theorem namespace_a_space_not_extension (u : GoString) :
    (mapAdapter (lit "a. ")).mutexName ≠ (mapAdapter (lit "a")).mutexName ++ lit "." ++ QueryEscape u := by
  intro h
  have e : QueryEscape u = [32] := by
    have h1 : ([97, 46, 32] : GoString) = [97] ++ [46] ++ QueryEscape u := h
    simp only [List.cons_append, List.nil_append, List.cons.injEq, true_and] at h1
    exact h1.symm
  have := space_not_mem_QueryEscape u
  rw [e] at this
  exact this (by simp)

theorem namespace_a_not_extension (u : GoString) :
    (mapAdapter (lit "a")).mutexName ≠ (mapAdapter (lit "a. ")).mutexName ++ lit "." ++ QueryEscape u := by
  intro h
  have h1 : ([97] : GoString) = [97, 46, 32] ++ [46] ++ QueryEscape u := h
  simp at h1

theorem lockKey_ne_dataKey (n1 n2 e : GoString) :
    (n1 ++ lit ".") ++ e ++ lit ".lock" ≠ n2 ++ lit ".data" := by
  intro h
  have := congrArg List.reverse h
  rw [lit_dot_lock, lit_dot_data] at this
  simp at this

/-- C8: for a fixed namespace, two distinct tenant keys have different lock keys; the escaping
of the tenant key is injective, and both keys are the namespace followed by ".", the escaped
tenant key and ".lock". -/
theorem effectiveKey_lock_injective {σ : Type} (inst : redisSyncAdapter σ) (t1 t2 : GoString)
    (h : t1 ≠ t2) :
    effectiveKey inst t1 (lit "lock") ≠ effectiveKey inst t2 (lit "lock") ∧
    QueryEscape t1 ≠ QueryEscape t2 ∧
    effectiveKey inst t1 (lit "lock")
      = (inst.mutexName ++ lit ".") ++ QueryEscape t1 ++ lit ".lock" ∧
    effectiveKey inst t2 (lit "lock")
      = (inst.mutexName ++ lit ".") ++ QueryEscape t2 ++ lit ".lock" := by
  refine ⟨?_, ?_, effectiveKey_lock inst t1, effectiveKey_lock inst t2⟩
  · intro he
    rw [effectiveKey_lock, effectiveKey_lock] at he
    have := List.append_cancel_right he
    have := List.append_cancel_left this
    exact h (QueryEscape_injective _ _ this)
  · intro he
    exact h (QueryEscape_injective _ _ he)

theorem effectiveKey_lock_injective_witness :
    lit "a b" ≠ lit "a+b" ∧
    effectiveKey (mapAdapter (lit "ns")) (lit "a b") (lit "lock")
      ≠ effectiveKey (mapAdapter (lit "ns")) (lit "a+b") (lit "lock") :=
  ⟨by decide, (effectiveKey_lock_injective (mapAdapter (lit "ns")) (lit "a b") (lit "a+b")
    (by decide)).1⟩

/-- C9: the tenant segment of a lock key, the text between the namespace followed by "." and
the ending ".lock", is escaped text: each byte is an ASCII letter, a digit, one of '-', '_',
'.', '~', a '+', or part of a '%' followed by two uppercase hexadecimal digits. -/
theorem effectiveKey_lock_segment_escaped {σ : Type} (inst : redisSyncAdapter σ)
    (t : GoString) :
    effectiveKey inst t (lit "lock")
      = (inst.mutexName ++ lit ".") ++ QueryEscape t ++ lit ".lock" ∧
    isEscaped (QueryEscape t) = true ∧
    ∀ c ∈ QueryEscape t, isUnreserved c = true ∨ c = 43 ∨ c = 37 := by
  refine ⟨effectiveKey_lock inst t, ?_, ?_⟩
  · unfold isEscaped QueryEscape
    rw [escape_eq_escapeLoop]
    exact isEscapedFrom_escapeLoop t
  · unfold QueryEscape
    rw [escape_eq_escapeLoop]
    exact mem_escapeLoop t

/-- C10, as the claim states it, fails: the namespaces "a" and "a.x" are both accepted and are
different, yet tenant "x.y" under "a" and tenant "y" under "a.x" have the same lock key. -/
theorem namespace_lock_key_collision :
    NewRedisSyncAdapter (⟨lit "a", some mapPool⟩ : Config MapStore)
      = (some (mapAdapter (lit "a")), none) ∧
    NewRedisSyncAdapter (⟨lit "a.x", some mapPool⟩ : Config MapStore)
      = (some (mapAdapter (lit "a.x")), none) ∧
    (mapAdapter (lit "a")).mutexName ≠ (mapAdapter (lit "a.x")).mutexName ∧
    effectiveKey (mapAdapter (lit "a")) (lit "x.y") (lit "lock")
      = effectiveKey (mapAdapter (lit "a.x")) (lit "y") (lit "lock") :=
  ⟨rfl, rfl, by decide, by decide⟩

/-- C10, amended: a lock key under one namespace equals a lock key under another only when
namespace and tenant key are the same, or when one namespace is the other followed by "." and
the escape of some text u, the tenant key of the shorter namespace being u, "." and the other
tenant key; and every such pair of namespaces does share lock keys. So when neither namespace
is the other followed by "." and escaped text, the lock key determines the pair (namespace,
tenant key), and lock keys of different namespaces differ. Whatever the namespaces are, status
keys of different namespaces differ, and a lock key never equals a status key. -/
theorem store_keys_isolated {σ : Type} (a1 a2 : redisSyncAdapter σ) (t1 t2 : GoString) :
    (effectiveKey a1 t1 (lit "lock") = effectiveKey a2 t2 (lit "lock") →
      (a1.mutexName = a2.mutexName ∧ t1 = t2) ∨
      (∃ u, a2.mutexName = a1.mutexName ++ lit "." ++ QueryEscape u ∧
        t1 = u ++ lit "." ++ t2) ∨
      (∃ u, a1.mutexName = a2.mutexName ++ lit "." ++ QueryEscape u ∧
        t2 = u ++ lit "." ++ t1)) ∧
    (∀ u, a2.mutexName = a1.mutexName ++ lit "." ++ QueryEscape u →
      effectiveKey a1 (u ++ lit "." ++ t2) (lit "lock") = effectiveKey a2 t2 (lit "lock")) ∧
    ((∀ u, a2.mutexName ≠ a1.mutexName ++ lit "." ++ QueryEscape u) →
      (∀ u, a1.mutexName ≠ a2.mutexName ++ lit "." ++ QueryEscape u) →
      effectiveKey a1 t1 (lit "lock") = effectiveKey a2 t2 (lit "lock") →
      a1.mutexName = a2.mutexName ∧ t1 = t2) ∧
    (a1.mutexName ≠ a2.mutexName →
      a1.mutexName ++ lit ".data" ≠ a2.mutexName ++ lit ".data") ∧
    effectiveKey a1 t1 (lit "lock") ≠ a2.mutexName ++ lit ".data" ∧
    a1.mutexName ++ lit ".data" ≠ effectiveKey a2 t2 (lit "lock") := by
  refine ⟨?_, ?_, ?_, ?_, ?_, ?_⟩
  · intro h
    rw [effectiveKey_lock, effectiveKey_lock] at h
    exact lockKey_eq_cases _ _ _ _ h
  · intro u hu
    rw [effectiveKey_lock, effectiveKey_lock]
    exact lockKey_eq_of_extension _ _ u t2 hu
  · intro h12 h21 h
    rw [effectiveKey_lock, effectiveKey_lock] at h
    rcases lockKey_eq_cases _ _ _ _ h with hs | ⟨u, hu, -⟩ | ⟨u, hu, -⟩
    · exact hs
    · exact absurd hu (h12 u)
    · exact absurd hu (h21 u)
  · intro hne h
    exact hne (List.append_cancel_right h)
  · rw [effectiveKey_lock]
    exact lockKey_ne_dataKey _ _ _
  · rw [effectiveKey_lock]
    exact fun h => lockKey_ne_dataKey _ _ _ h.symm

theorem store_keys_isolated_witness :
    NewRedisSyncAdapter (⟨lit "a. ", some mapPool⟩ : Config MapStore)
      = (some (mapAdapter (lit "a. ")), none) ∧
    (∀ u, (mapAdapter (lit "a. ")).mutexName
      ≠ (mapAdapter (lit "a")).mutexName ++ lit "." ++ QueryEscape u) ∧
    (∀ u, (mapAdapter (lit "a")).mutexName
      ≠ (mapAdapter (lit "a. ")).mutexName ++ lit "." ++ QueryEscape u) ∧
    effectiveKey (mapAdapter (lit "a")) (lit "x.y") (lit "lock")
      ≠ effectiveKey (mapAdapter (lit "a. ")) (lit "y") (lit "lock") :=
  ⟨rfl, namespace_a_space_not_extension, namespace_a_not_extension,
   fun h => absurd
     ((store_keys_isolated (mapAdapter (lit "a")) (mapAdapter (lit "a. ")) (lit "x.y") (lit "y")).2.2.1
       namespace_a_space_not_extension namespace_a_not_extension h).1
     (by decide)⟩

/-! ### Lock and Unlock on one adapter -/

theorem tenantMutex_localMutext {σ : Type} (inst : redisSyncAdapter σ) (t : GoString) :
    (tenantMutex inst t).2.localMutext = inst.localMutext := by
  unfold tenantMutex
  split <;> rfl

theorem tenantMutex_mutexName {σ : Type} (inst : redisSyncAdapter σ) (t : GoString) :
    (tenantMutex inst t).2.mutexName = inst.mutexName := by
  unfold tenantMutex
  split <;> rfl

theorem Lock_of_free {σ : Type} (inst : redisSyncAdapter σ)
    (hfree : inst.localMutext.locked = false) (ctx : Context) (tenantKey : GoString)
    (lockResult : Option GoError) :
    ∃ inst1, Lock inst ctx tenantKey lockResult = some (lockResult, inst1) ∧
      (∀ e, lockResult = some e → inst1.localMutext.locked = false) ∧
      (lockResult = none → inst1.localMutext.locked = true) := by
  have hl : inst.localMutext.Lock = some { inst.localMutext with locked := true } := by
    simp [SyncMutex.Lock, hfree]
  cases lockResult with
  | none =>
    refine ⟨(tenantMutex { inst with localMutext := { inst.localMutext with locked := true } }
      tenantKey).2, ?_, ?_, ?_⟩
    · simp [Lock, lockGuard, hl, lockFinish]
    · intro e he
      cases he
    · intro _
      rw [tenantMutex_localMutext]
  | some e =>
    refine ⟨{ (tenantMutex { inst with localMutext := { inst.localMutext with locked := true } }
      tenantKey).2 with
      localMutext := { locked := false, unlocks := inst.localMutext.unlocks + 1 } }, ?_, ?_, ?_⟩
    · simp [Lock, lockGuard, hl, lockFinish, unlockGuard, SyncMutex.Unlock,
        tenantMutex_localMutext]
    · intro _ _
      rfl
    · intro he
      cases he


/-- C1: on an adapter whose guard is free, Lock returns; it returns exactly what the Lock() of
the distributed lock returned; after an error the guard is free again, after a success it is
held. -/
theorem Lock_returns_lockResult {σ : Type} (inst : redisSyncAdapter σ)
    (hfree : inst.localMutext.locked = false) (ctx : Context) (tenantKey : GoString)
    (lockResult : Option GoError) :
    ∃ inst1, Lock inst ctx tenantKey lockResult = some (lockResult, inst1) ∧
      (∀ e, lockResult = some e → inst1.localMutext.locked = false) ∧
      (lockResult = none → inst1.localMutext.locked = true) :=
  Lock_of_free inst hfree ctx tenantKey lockResult

theorem Lock_returns_lockResult_witness :
    (mapAdapter (lit "ns")).localMutext.locked = false ∧
    ∃ inst1, Lock (mapAdapter (lit "ns")) (Context.caller 1) (lit "tenant")
        (some (errorsNew "lock already taken"))
        = some (some (errorsNew "lock already taken"), inst1) ∧
      (∀ e, some (errorsNew "lock already taken") = some e → inst1.localMutext.locked = false) ∧
      (some (errorsNew "lock already taken") = none → inst1.localMutext.locked = true) :=
  ⟨rfl, Lock_returns_lockResult (mapAdapter (lit "ns")) rfl (Context.caller 1) (lit "tenant")
    (some (errorsNew "lock already taken"))⟩

/-- C2: on an adapter whose guard is held, Unlock of any tenant key returns; it returns exactly
the error of the Unlock() of the distributed lock, whatever its boolean and whether the error
is nil or not; the guard is free afterwards and has been released exactly once, so that a Lock
that follows, for any tenant key, returns. -/
theorem Unlock_returns_err {σ : Type} (inst : redisSyncAdapter σ)
    (hheld : inst.localMutext.locked = true) (ctx : Context) (tenantKey : GoString)
    (ok : Bool) (err : Option GoError) :
    ∃ inst1, Unlock inst ctx tenantKey (ok, err) = some (err, inst1) ∧
      inst1.localMutext.locked = false ∧
      inst1.localMutext.unlocks = inst.localMutext.unlocks + 1 ∧
      ∀ (ctx1 : Context) (t1 : GoString) (r1 : Option GoError),
        ∃ inst2, Lock inst1 ctx1 t1 r1 = some (r1, inst2) := by
  refine ⟨{ (tenantMutex inst tenantKey).2 with
    localMutext := { locked := false, unlocks := inst.localMutext.unlocks + 1 } },
    ?_, rfl, rfl, ?_⟩
  · simp [Unlock, unlockFinish, unlockGuard, SyncMutex.Unlock, tenantMutex_localMutext, hheld]
  · intro ctx1 t1 r1
    obtain ⟨inst2, h, -⟩ := Lock_of_free ({ (tenantMutex inst tenantKey).2 with
      localMutext := { locked := false, unlocks := inst.localMutext.unlocks + 1 } }) rfl
      ctx1 t1 r1
    exact ⟨inst2, h⟩

theorem Unlock_returns_err_witness :
    ({ mapAdapter (lit "ns") with localMutext := ⟨true, 0⟩ } :
      redisSyncAdapter MapStore).localMutext.locked = true ∧
    ∃ inst1, Unlock ({ mapAdapter (lit "ns") with localMutext := ⟨true, 0⟩ })
        Context.background (lit "never locked") (true, some (errorsNew "lock expired"))
        = some (some (errorsNew "lock expired"), inst1) ∧
      inst1.localMutext.locked = false ∧
      inst1.localMutext.unlocks = 0 + 1 ∧
      ∀ (ctx1 : Context) (t1 : GoString) (r1 : Option GoError),
        ∃ inst2, Lock inst1 ctx1 t1 r1 = some (r1, inst2) :=
  ⟨rfl, Unlock_returns_err ({ mapAdapter (lit "ns") with localMutext := ⟨true, 0⟩ }) rfl
    Context.background (lit "never locked") true (some (errorsNew "lock expired"))⟩

/-! ### Fetch and Write -/

theorem lookup_cons_self (k v : GoString) (m : MapStore) :
    List.lookup k ((k, v) :: m) = some v := by
  simp [List.lookup]

/-- C4: over the map store, Write of any status under any tenant key returns nil and binds the
key namespace + ".data" to the status; Fetch under any tenant key reads that same key, and
right after the Write it returns the status written and a nil error. -/
theorem Write_then_Fetch (inst : redisSyncAdapter MapStore) (hpool : inst.pool = mapPool)
    (ctx1 ctx2 : Context) (t1 t2 : GoString) (s : GoString) (st : MapStore) :
    Write inst ctx1 t1 s st
      = (none, (inst.mutexName ++ lit ".data", s)
          :: st.filter (fun e => e.1 ≠ inst.mutexName ++ lit ".data")) ∧
    Fetch inst ctx2 t2 (Write inst ctx1 t1 s st).2 = ((s, none), (Write inst ctx1 t1 s st).2) ∧
    ∀ st1 : MapStore, Fetch inst ctx2 t2 st1
      = (((st1.lookup (inst.mutexName ++ lit ".data")).getD [], none), st1) := by
  have hw : Write inst ctx1 t1 s st
      = (none, (inst.mutexName ++ lit ".data", s)
          :: st.filter (fun e => e.1 ≠ inst.mutexName ++ lit ".data")) := by
    simp [Write, hpool, mapPool, mapConn]
  have hf : ∀ st1 : MapStore, Fetch inst ctx2 t2 st1
      = (((st1.lookup (inst.mutexName ++ lit ".data")).getD [], none), st1) := by
    intro st1
    simp only [Fetch, hpool, mapPool, mapConn]
    by_cases hv : (st1.lookup (inst.mutexName ++ lit ".data")).getD [] = []
    · simp [hv]
    · simp [hv]
  refine ⟨hw, ?_, hf⟩
  rw [hf, hw]
  simp only [lookup_cons_self, Option.getD_some]

theorem Write_then_Fetch_witness :
    (mapAdapter (lit "ns")).pool = mapPool ∧
    Fetch (mapAdapter (lit "ns")) Context.background (lit "t2")
        (Write (mapAdapter (lit "ns")) (Context.caller 7) (lit "t1") [] [(lit "ns.data", lit "x")]).2
      = (([], none),
         (Write (mapAdapter (lit "ns")) (Context.caller 7) (lit "t1") [] [(lit "ns.data", lit "x")]).2) :=
  ⟨rfl, (Write_then_Fetch (mapAdapter (lit "ns")) rfl (Context.caller 7) Context.background
    (lit "t1") (lit "t2") [] [(lit "ns.data", lit "x")]).2.1⟩

/-- C6: Write returns the error of a failed pool Get; the error of a Set that returned one; the
error "write to server failed" when Set returned false and a nil error; and nil exactly when
the connection was obtained and Set returned true and a nil error. -/
theorem Write_result {σ : Type} (inst : redisSyncAdapter σ) (ctx : Context)
    (tenantKey status : GoString) (st : σ) :
    (∀ e, inst.pool.Get Context.background st = .error e →
      Write inst ctx tenantKey status st = (some e, st)) ∧
    (∀ conn ok err st1, inst.pool.Get Context.background st = .ok conn →
      conn.Set (inst.mutexName ++ lit ".data") status st = ((ok, err), st1) →
        (∀ e, err = some e → Write inst ctx tenantKey status st = (some e, st1)) ∧
        (err = none → ok = false →
          Write inst ctx tenantKey status st
            = (some (errorsNew "write to server failed"), st1)) ∧
        (err = none → ok = true → Write inst ctx tenantKey status st = (none, st1))) ∧
    ((Write inst ctx tenantKey status st).1 = none ↔
      ∃ conn st1, inst.pool.Get Context.background st = .ok conn ∧
        conn.Set (inst.mutexName ++ lit ".data") status st = ((true, none), st1)) := by
  refine ⟨?_, ?_, ?_⟩
  · intro e he
    simp [Write, he]
  · intro conn ok err st1 hconn hset
    refine ⟨?_, ?_, ?_⟩
    · intro e he
      simp [Write, hconn, hset, he]
    · intro he hok
      simp [Write, hconn, hset, he, hok]
    · intro he hok
      simp [Write, hconn, hset, he, hok]
  · constructor
    · intro h
      cases hconn : inst.pool.Get Context.background st with
      | error e => simp [Write, hconn] at h
      | ok conn =>
        rcases hset : conn.Set (inst.mutexName ++ lit ".data") status st with ⟨⟨ok, err⟩, st1⟩
        refine ⟨conn, st1, rfl, ?_⟩
        cases err with
        | some e => simp [Write, hconn, hset] at h
        | none =>
          cases ok with
          | false => simp [Write, hconn, hset] at h
          | true => exact hset
    · rintro ⟨conn, st1, hconn, hset⟩
      simp [Write, hconn, hset]

/-! ### The cache of lock handles -/

theorem lookup_filter_ne (m : List (GoString × RedsyncMutex)) (k k1 : GoString) (h : k1 ≠ k) :
    (m.filter (fun e => e.1 ≠ k)).lookup k1 = m.lookup k1 := by
  induction m with
  | nil => rfl
  | cons e m ih =>
    rcases e with ⟨a, b⟩
    by_cases ha : a = k
    · have hk : (k1 == a) = false := by
        rw [ha]
        exact beq_false_of_ne h
      simp only [List.filter, ha, ne_eq, not_true_eq_false, decide_False, List.lookup]
      rw [← ha, hk]
      simpa [ha] using ih
    · simp only [List.filter, ne_eq, ha, not_false_eq_true, decide_True, List.lookup]
      rw [ih]

theorem lookup_mapAssign (m : List (GoString × RedsyncMutex)) (k k1 : GoString)
    (v : RedsyncMutex) :
    (mapAssign m k v).lookup k1 = if k1 = k then some v else m.lookup k1 := by
  unfold mapAssign
  by_cases h : k1 = k
  · rw [if_pos h, h]
    simp [List.lookup]
  · rw [if_neg h]
    have hk : (k1 == k) = false := beq_false_of_ne h
    simp only [List.lookup, hk]
    exact lookup_filter_ne m k k1 h

theorem tenantMutex_hit {σ : Type} (inst : redisSyncAdapter σ) (t : GoString) (h : RedsyncMutex)
    (hl : inst.mutexMap.lookup t = some h) : tenantMutex inst t = (h, inst) := by
  unfold tenantMutex
  rw [hl]

theorem tenantMutex_lookup_self {σ : Type} (inst : redisSyncAdapter σ) (t : GoString) :
    (tenantMutex inst t).2.mutexMap.lookup t = some (tenantMutex inst t).1 := by
  unfold tenantMutex
  split
  · next existing hl => exact hl
  · next hl =>
    simp only
    rw [lookup_mapAssign, if_pos rfl]

theorem tenantMutex_keeps {σ : Type} (inst : redisSyncAdapter σ) (t k : GoString)
    (h : RedsyncMutex) (hl : inst.mutexMap.lookup k = some h) :
    (tenantMutex inst t).2.mutexMap.lookup k = some h := by
  unfold tenantMutex
  split
  · exact hl
  · next hmiss =>
    simp only
    rw [lookup_mapAssign]
    by_cases hk : k = t
    · rw [hk, hmiss] at hl
      cases hl
    · rw [if_neg hk]
      exact hl

theorem tenantMutex_names {σ : Type} (inst : redisSyncAdapter σ) (t : GoString)
    (hinv : ∀ k h, inst.mutexMap.lookup k = some h → h.name = effectiveKey inst k (lit "lock")) :
    ∀ k h, (tenantMutex inst t).2.mutexMap.lookup k = some h →
      h.name = effectiveKey (tenantMutex inst t).2 k (lit "lock") := by
  intro k h
  have hname : ∀ k1, effectiveKey (tenantMutex inst t).2 k1 (lit "lock")
      = effectiveKey inst k1 (lit "lock") := by
    intro k1
    simp only [effectiveKey, tenantMutex_mutexName]
  rw [hname]
  unfold tenantMutex
  split
  · exact hinv k h
  · simp only
    rw [lookup_mapAssign]
    by_cases hk : k = t
    · rw [if_pos hk, hk]
      intro he
      cases he
      rfl
    · rw [if_neg hk]
      exact hinv k h

theorem lockGuard_fields {σ : Type} (inst inst1 : redisSyncAdapter σ)
    (h : lockGuard inst = some inst1) :
    inst1.mutexMap = inst.mutexMap ∧ inst1.mutexName = inst.mutexName := by
  unfold lockGuard at h
  split at h
  · cases h
  · cases h
    exact ⟨rfl, rfl⟩

theorem unlockGuard_fields {σ : Type} (inst inst1 : redisSyncAdapter σ)
    (h : unlockGuard inst = some inst1) :
    inst1.mutexMap = inst.mutexMap ∧ inst1.mutexName = inst.mutexName := by
  unfold unlockGuard at h
  split at h
  · cases h
  · cases h
    exact ⟨rfl, rfl⟩

theorem lockFinish_fields {σ : Type} (inst inst1 : redisSyncAdapter σ) (err res : Option GoError)
    (h : lockFinish inst err = some (res, inst1)) :
    inst1.mutexMap = inst.mutexMap ∧ inst1.mutexName = inst.mutexName := by
  unfold lockFinish at h
  split at h
  · split at h
    · cases h
    · next inst2 hu =>
      cases h
      exact unlockGuard_fields _ _ hu
  · cases h
    exact ⟨rfl, rfl⟩

theorem unlockFinish_fields {σ : Type} (inst inst1 : redisSyncAdapter σ)
    (err res : Option GoError) (h : unlockFinish inst err = some (res, inst1)) :
    inst1.mutexMap = inst.mutexMap ∧ inst1.mutexName = inst.mutexName := by
  unfold unlockFinish at h
  split at h
  · cases h
  · next inst2 hu =>
    cases h
    exact unlockGuard_fields _ _ hu

theorem Keeps.refl {σ : Type} (a : redisSyncAdapter σ) : Keeps a a :=
  ⟨rfl, fun _ _ h => h, fun h => h⟩

theorem Keeps.trans {σ : Type} {a b c : redisSyncAdapter σ} (h1 : Keeps a b) (h2 : Keeps b c) :
    Keeps a c :=
  ⟨h2.name.trans h1.name, fun k h hl => h2.entries k h (h1.entries k h hl),
    fun hinv => h2.keys (h1.keys hinv)⟩

theorem Keeps.of_fields {σ : Type} {a b : redisSyncAdapter σ} (hm : b.mutexMap = a.mutexMap)
    (hn : b.mutexName = a.mutexName) : Keeps a b := by
  refine ⟨hn, ?_, ?_⟩
  · intro k h hl
    rw [hm]
    exact hl
  · intro hinv k h hl
    rw [hm] at hl
    simp only [effectiveKey, hn]
    exact hinv k h hl

theorem Keeps.tenantMutex {σ : Type} (a : redisSyncAdapter σ) (t : GoString) :
    Keeps a (tenantMutex a t).2 :=
  ⟨tenantMutex_mutexName a t, fun k h hl => tenantMutex_keeps a t k h hl,
    fun hinv => tenantMutex_names a t hinv⟩

theorem Keeps.Lock {σ : Type} (a b : redisSyncAdapter σ) (ctx : Context) (t : GoString)
    (r res : Option GoError) (h : Lock a ctx t r = some (res, b)) : Keeps a b := by
  unfold GollRedis.Lock at h
  split at h
  · cases h
  · next a1 hg =>
    simp only at h
    have k1 : Keeps a a1 :=
      Keeps.of_fields (lockGuard_fields a a1 hg).1 (lockGuard_fields a a1 hg).2
    have k2 : Keeps a1 (GollRedis.tenantMutex a1 t).2 := Keeps.tenantMutex a1 t
    have k3 : Keeps (GollRedis.tenantMutex a1 t).2 b :=
      Keeps.of_fields (lockFinish_fields _ _ _ _ h).1 (lockFinish_fields _ _ _ _ h).2
    exact k1.trans (k2.trans k3)

theorem Keeps.Unlock {σ : Type} (a b : redisSyncAdapter σ) (ctx : Context) (t : GoString)
    (r : Bool × Option GoError) (res : Option GoError) (h : Unlock a ctx t r = some (res, b)) :
    Keeps a b := by
  unfold GollRedis.Unlock at h
  simp only at h
  have k2 : Keeps a (GollRedis.tenantMutex a t).2 := Keeps.tenantMutex a t
  have k3 : Keeps (GollRedis.tenantMutex a t).2 b :=
    Keeps.of_fields (unlockFinish_fields _ _ _ _ h).1 (unlockFinish_fields _ _ _ _ h).2
  exact k2.trans k3

theorem Keeps.applyOp {σ : Type} (op : Op) (s s1 : redisSyncAdapter σ × σ)
    (h : applyOp op s = some s1) : Keeps s.1 s1.1 := by
  cases op with
  | lock ctx t r =>
    simp only [GollRedis.applyOp] at h
    split at h
    · cases h
    · next res hl =>
      cases h
      exact Keeps.Lock s.1 res.2 ctx t r res.1 hl
  | unlock ctx t r =>
    simp only [GollRedis.applyOp] at h
    split at h
    · cases h
    · next res hl =>
      cases h
      exact Keeps.Unlock s.1 res.2 ctx t r res.1 hl
  | fetch ctx t =>
    simp only [GollRedis.applyOp] at h
    cases h
    exact Keeps.refl _
  | write ctx t v =>
    simp only [GollRedis.applyOp] at h
    cases h
    exact Keeps.refl _

theorem Keeps.runOps {σ : Type} : ∀ (ops : List Op) (s s1 : redisSyncAdapter σ × σ),
    runOps ops s = some s1 → Keeps s.1 s1.1 := by
  intro ops
  induction ops with
  | nil =>
    intro s s1 h
    simp only [GollRedis.runOps] at h
    cases h
    exact Keeps.refl _
  | cons op ops ih =>
    intro s s1 h
    simp only [GollRedis.runOps] at h
    split at h
    · cases h
    · next s2 hop => exact (Keeps.applyOp op s s2 hop).trans (ih s2 s1 h)

theorem NewRedisSyncAdapter_fields {σ : Type} (cfg : Config σ) (a : redisSyncAdapter σ)
    (h : NewRedisSyncAdapter cfg = (some a, none)) :
    a.mutexName = cfg.MutexName ∧ a.mutexMap = [] ∧ cfg.Pool = some a.pool ∧
      a.localMutext = SyncMutex.zero := by
  unfold NewRedisSyncAdapter at h
  simp only at h
  split at h
  · cases h
  · split at h
    · cases h
    · next pool hp =>
      cases h
      exact ⟨rfl, rfl, hp, rfl⟩

/-- C7: on an adapter built by NewRedisSyncAdapter, after any calls, let a tenant key be
resolved, and let any further calls (Lock, Unlock, Fetch, Write, with any arguments and
results) follow. Then resolving the tenant key again returns the identical handle and leaves
the adapter as it is (no handle is created, the cache is unchanged); every entry the cache had
is still there with the same handle; every cached handle carries the key namespace + "." +
QueryEscape(tenant key) + ".lock"; and no single call removes or replaces an entry of the cache
of any adapter. -/
theorem tenantMutex_handle_kept {σ : Type} (cfg : Config σ) (a : redisSyncAdapter σ)
    (hnew : NewRedisSyncAdapter cfg = (some a, none)) (st0 : σ) (ops1 ops2 : List Op)
    (t : GoString) (s1 : redisSyncAdapter σ) (st1 : σ)
    (h1 : runOps ops1 (a, st0) = some (s1, st1))
    (s3 : redisSyncAdapter σ) (st3 : σ)
    (h2 : runOps ops2 ((tenantMutex s1 t).2, st1) = some (s3, st3)) :
    tenantMutex s3 t = ((tenantMutex s1 t).1, s3) ∧
    (tenantMutex s1 t).1.name = (cfg.MutexName ++ lit ".") ++ QueryEscape t ++ lit ".lock" ∧
    (∀ k h, (tenantMutex s1 t).2.mutexMap.lookup k = some h →
      s3.mutexMap.lookup k = some h) ∧
    (∀ k h, s3.mutexMap.lookup k = some h →
      h.name = (cfg.MutexName ++ lit ".") ++ QueryEscape k ++ lit ".lock") ∧
    (∀ (op : Op) (s s2 : redisSyncAdapter σ × σ), applyOp op s = some s2 →
      ∀ k h, s.1.mutexMap.lookup k = some h → s2.1.mutexMap.lookup k = some h) := by
  obtain ⟨hname, hmap, -, -⟩ := NewRedisSyncAdapter_fields cfg a hnew
  have ka : Keeps a s1 := Keeps.runOps ops1 (a, st0) (s1, st1) h1
  have kb : Keeps s1 (tenantMutex s1 t).2 := Keeps.tenantMutex s1 t
  have kc : Keeps (tenantMutex s1 t).2 s3 :=
    Keeps.runOps ops2 ((tenantMutex s1 t).2, st1) (s3, st3) h2
  have hinv0 : ∀ k h, a.mutexMap.lookup k = some h → h.name = effectiveKey a k (lit "lock") := by
    intro k h hl
    rw [hmap] at hl
    cases hl
  have hn3 : s3.mutexName = cfg.MutexName := by
    rw [kc.name, kb.name, ka.name, hname]
  have hinv3 := kc.keys (kb.keys (ka.keys hinv0))
  have hhit : s3.mutexMap.lookup t = some (tenantMutex s1 t).1 :=
    kc.entries t _ (tenantMutex_lookup_self s1 t)
  refine ⟨tenantMutex_hit s3 t _ hhit, ?_, kc.entries, ?_, ?_⟩
  · rw [hinv3 t _ hhit, effectiveKey_lock, hn3]
  · intro k h hl
    rw [hinv3 k h hl, effectiveKey_lock, hn3]
  · intro op s s2 hop
    exact (Keeps.applyOp op s s2 hop).entries

theorem tenantMutex_handle_kept_witness :
    tenantMutex
        ({ mapAdapter (lit "ns") with
            localMutext := ⟨false, 1⟩
            mutexMap := [(lit "b", NewMutex 1 (lit "ns.b.lock") (5 * Second)),
                         (lit "a", NewMutex 0 (lit "ns.a.lock") (5 * Second))]
            heap := 2 } : redisSyncAdapter MapStore) (lit "a")
      = ((tenantMutex (mapAdapter (lit "ns")) (lit "a")).1,
         { mapAdapter (lit "ns") with
            localMutext := ⟨false, 1⟩
            mutexMap := [(lit "b", NewMutex 1 (lit "ns.b.lock") (5 * Second)),
                         (lit "a", NewMutex 0 (lit "ns.a.lock") (5 * Second))]
            heap := 2 }) :=
  (tenantMutex_handle_kept (⟨lit "ns", some mapPool⟩ : Config MapStore) (mapAdapter (lit "ns"))
    rfl [] [] [.lock (.caller 1) (lit "b") none, .write (.caller 1) (lit "b") (lit "busy"),
      .fetch .background (lit "a"), .unlock (.caller 1) (lit "b") (false, none)]
    (lit "a") (mapAdapter (lit "ns")) [] rfl
    { mapAdapter (lit "ns") with
        localMutext := ⟨false, 1⟩
        mutexMap := [(lit "b", NewMutex 1 (lit "ns.b.lock") (5 * Second)),
                     (lit "a", NewMutex 0 (lit "ns.a.lock") (5 * Second))]
        heap := 2 }
    [(lit "ns.data", lit "busy")] rfl).1

/-! ### Callers interleaved on one adapter -/

theorem setPc_self (pc : Nat → Pc) (tid : Nat) (p : Pc) : setPc pc tid p tid = p := by
  simp [setPc]

theorem setPc_other (pc : Nat → Pc) (tid i : Nat) (p : Pc) (h : i ≠ tid) :
    setPc pc tid p i = pc i := by
  simp [setPc, h]

/-- A caller that holds the guard moves to a position where it still holds it, and the guard
is untouched. -/
theorem guardInv_keep {σ : Type} (sys : Sys σ) (a : redisSyncAdapter σ) (tid : Nat) (p : Pc)
    (hinv : guardInv sys) (hold : (sys.pc tid).holdsGuard = true)
    (ha : a.localMutext = sys.adapter.localMutext) :
    guardInv { adapter := a, pc := setPc sys.pc tid p } := by
  refine ⟨?_, ?_⟩
  · intro i j hi hj
    have hi1 : (sys.pc i).holdsGuard = true := by
      by_cases h : i = tid
      · rw [h]; exact hold
      · simpa [setPc, h] using hi
    have hj1 : (sys.pc j).holdsGuard = true := by
      by_cases h : j = tid
      · rw [h]; exact hold
      · simpa [setPc, h] using hj
    exact hinv.1 i j hi1 hj1
  · intro hfree
    simp only [ha] at hfree
    have := hinv.2 hfree tid
    rw [hold] at this
    cases this

/-- A caller that does not hold the guard moves to a position where it still does not, and
the guard is untouched. -/
theorem guardInv_outside {σ : Type} (sys : Sys σ) (tid : Nat) (p : Pc)
    (hinv : guardInv sys) (hp : p.holdsGuard = false) :
    guardInv { sys with pc := setPc sys.pc tid p } := by
  refine ⟨?_, ?_⟩
  · intro i j hi hj
    have hi1 : i ≠ tid := by
      intro h
      rw [h] at hi
      simp only [setPc_self, hp] at hi
      cases hi
    have hj1 : j ≠ tid := by
      intro h
      rw [h] at hj
      simp only [setPc_self, hp] at hj
      cases hj
    simp only [setPc_other _ _ _ _ hi1] at hi
    simp only [setPc_other _ _ _ _ hj1] at hj
    exact hinv.1 i j hi hj
  · intro hfree i
    by_cases h : i = tid
    · rw [h]
      simp only [setPc_self, hp]
    · simp only [setPc_other _ _ _ _ h]
      exact hinv.2 hfree i

/-- The caller that holds the guard releases it and moves to a position outside. -/
theorem guardInv_release {σ : Type} (sys : Sys σ) (a : redisSyncAdapter σ) (tid : Nat) (p : Pc)
    (hinv : guardInv sys) (hold : (sys.pc tid).holdsGuard = true) (hp : p.holdsGuard = false) :
    guardInv { adapter := a, pc := setPc sys.pc tid p } := by
  have hnone : ∀ i, (setPc sys.pc tid p i).holdsGuard = false := by
    intro i
    by_cases h : i = tid
    · rw [h, setPc_self]
      exact hp
    · rw [setPc_other _ _ _ _ h]
      cases hi : (sys.pc i).holdsGuard
      · rfl
      · exact absurd (hinv.1 i tid hi hold) h
  refine ⟨?_, fun _ => hnone⟩
  intro i j hi _
  simp only at hi
  rw [hnone i] at hi
  cases hi

/-- A caller acquires the free guard. -/
theorem guardInv_acquire {σ : Type} (sys : Sys σ) (a : redisSyncAdapter σ) (tid : Nat) (p : Pc)
    (hinv : guardInv sys) (hfree : sys.adapter.localMutext.locked = false)
    (ha : a.localMutext.locked = true) :
    guardInv { adapter := a, pc := setPc sys.pc tid p } := by
  have hnone := hinv.2 hfree
  refine ⟨?_, ?_⟩
  · intro i j hi hj
    have hi1 : i = tid := by
      by_contra h
      simp only [setPc_other _ _ _ _ h, hnone i] at hi
      cases hi
    have hj1 : j = tid := by
      by_contra h
      simp only [setPc_other _ _ _ _ h, hnone j] at hj
      cases hj
    rw [hi1, hj1]
  · intro hf
    simp only [ha] at hf
    cases hf

theorem lockGuard_some {σ : Type} (inst a : redisSyncAdapter σ) (h : lockGuard inst = some a) :
    inst.localMutext.locked = false ∧ a.localMutext.locked = true := by
  unfold lockGuard SyncMutex.Lock at h
  cases hl : inst.localMutext.locked
  · simp only [hl] at h
    cases h
    exact ⟨rfl, rfl⟩
  · simp [hl] at h

theorem guardInv_step {σ : Type} (sys sys1 : Sys σ) (tid : Nat) (act : Act)
    (hinv : guardInv sys) (h : step sys tid act = some sys1) : guardInv sys1 := by
  unfold step at h
  split at h
  · next t hpc =>
    cases h
    exact guardInv_outside sys tid _ hinv rfl
  · next t hpc =>
    split at h
    · cases h
    · next a hg =>
      cases h
      exact guardInv_acquire sys a tid _ hinv (lockGuard_some _ _ hg).1 (lockGuard_some _ _ hg).2
  · next t r hpc =>
    cases h
    exact guardInv_keep sys _ tid _ hinv (by rw [hpc]; rfl) (tenantMutex_localMutext _ _)
  · next t err hpc =>
    split at h
    · cases h
    · next res a hf =>
      cases h
      cases err with
      | none =>
        simp only [lockFinish] at hf
        cases hf
        exact guardInv_keep sys _ tid _ hinv (by rw [hpc]; rfl) rfl
      | some e =>
        simp only [lockFinish] at hf
        split at hf
        · cases hf
        · cases hf
          exact guardInv_release sys _ tid _ hinv (by rw [hpc]; rfl) rfl
  · next t0 t hpc =>
    cases h
    exact guardInv_keep sys _ tid _ hinv (by rw [hpc]; rfl) rfl
  · next t r hpc =>
    cases h
    exact guardInv_keep sys _ tid _ hinv (by rw [hpc]; rfl) (tenantMutex_localMutext _ _)
  · next err hpc =>
    split at h
    · cases h
    · next res a hf =>
      cases h
      exact guardInv_release sys _ tid _ hinv (by rw [hpc]; rfl) rfl
  · cases h

theorem guardInv_runSchedule {σ : Type} : ∀ (sched : List (Nat × Act)) (sys sys1 : Sys σ),
    guardInv sys → runSchedule sched sys = some sys1 → guardInv sys1 := by
  intro sched
  induction sched with
  | nil =>
    intro sys sys1 hinv h
    simp only [runSchedule] at h
    cases h
    exact hinv
  | cons mv rest ih =>
    intro sys sys1 hinv h
    rcases mv with ⟨tid, act⟩
    simp only [runSchedule] at h
    split at h
    · cases h
    · next sys2 hs => exact ih sys2 sys1 (guardInv_step sys sys2 tid act hinv hs) h

/-- The four moves of one caller through Lock, run with nobody in between, are the method
Lock: same adapter afterwards, and the caller is in its span exactly when Lock returned
nil. -/
theorem runSchedule_Lock {σ : Type} (sys : Sys σ) (tid : Nat) (ctx : Context) (t : GoString)
    (r res : Option GoError) (a1 : redisSyncAdapter σ) (hidle : sys.pc tid = .idle)
    (hL : Lock sys.adapter ctx t r = some (res, a1)) :
    ∃ sys1, runSchedule [(tid, .callLock t), (tid, .guardAcquire), (tid, .lockAttempt r),
        (tid, .lockReturn)] sys = some sys1 ∧
      sys1.adapter = a1 ∧ sys1.pc tid = (if res = none then .critical t else .idle) := by
  unfold Lock at hL
  cases hg : lockGuard sys.adapter with
  | none => simp [hg] at hL
  | some i1 =>
    simp only [hg] at hL
    cases hf : lockFinish (tenantMutex i1 t).2 r with
    | none => simp [hf] at hL
    | some p =>
      rcases p with ⟨res1, a2⟩
      simp only [hf, Option.some.injEq, Prod.mk.injEq] at hL
      obtain ⟨h1, h2⟩ := hL
      subst h1 h2
      simp [runSchedule, step, hidle, setPc, hg, hf]

/-- The three moves of one caller through Unlock, run with nobody in between, are the method
Unlock. -/
theorem runSchedule_Unlock {σ : Type} (sys : Sys σ) (tid : Nat) (ctx : Context)
    (t0 t : GoString) (r : Bool × Option GoError) (res : Option GoError)
    (a1 : redisSyncAdapter σ) (hspan : sys.pc tid = .critical t0)
    (hU : Unlock sys.adapter ctx t r = some (res, a1)) :
    ∃ sys1, runSchedule [(tid, .callUnlock t), (tid, .unlockAttempt r), (tid, .unlockReturn)] sys
        = some sys1 ∧
      sys1.adapter = a1 ∧ sys1.pc tid = .idle := by
  unfold Unlock at hU
  simp only at hU
  cases hf : unlockFinish (tenantMutex sys.adapter t).2 r.2 with
  | none => simp [hf] at hU
  | some p =>
    rcases p with ⟨res1, a2⟩
    simp only [hf, Option.some.injEq, Prod.mk.injEq] at hU
    obtain ⟨h1, h2⟩ := hU
    subst h1 h2
    simp [runSchedule, step, hspan, setPc, hf]

theorem guardInv_initSys {σ : Type} (a : redisSyncAdapter σ) : guardInv (initSys a) :=
  ⟨fun i _ hi _ => by simp [initSys, Pc.holdsGuard] at hi, fun _ _ => rfl⟩

theorem holdsGuard_of_inSpan_or_inUnlock (p : Pc) (h : p.inSpan = true ∨ p.inUnlock = true) :
    p.holdsGuard = true := by
  cases p <;> simp [Pc.inSpan, Pc.inUnlock, Pc.holdsGuard] at h ⊢

theorem outside_of_not_holdsGuard (p : Pc) (h : p.holdsGuard = false) :
    p = .idle ∨ ∃ t, p = .lockCalled t := by
  cases p <;> simp [Pc.holdsGuard] at h ⊢

/-- C3: callers interleaved on one adapter, each calling Unlock only after its own Lock returned
nil. In every state they reach, at most one caller is between the return of its Lock and its
call of Unlock; and while a caller is there, or is executing Unlock with the guard not yet
released, every other caller is outside every call or still waiting at the first line of Lock,
so that its Lock has not returned, whatever the tenant keys are. -/
theorem lock_spans_exclusive {σ : Type} (a : redisSyncAdapter σ) (sched : List (Nat × Act))
    (sys : Sys σ) (hrun : runSchedule sched (initSys a) = some sys) :
    (∀ i j, (sys.pc i).inSpan = true → (sys.pc j).inSpan = true → i = j) ∧
    (∀ i j, (sys.pc i).inSpan = true ∨ (sys.pc i).inUnlock = true → j ≠ i →
      sys.pc j = .idle ∨ ∃ t, sys.pc j = .lockCalled t) := by
  have hinv := guardInv_runSchedule sched (initSys a) sys (guardInv_initSys a) hrun
  refine ⟨?_, ?_⟩
  · intro i j hi hj
    exact hinv.1 i j (holdsGuard_of_inSpan_or_inUnlock _ (Or.inl hi))
      (holdsGuard_of_inSpan_or_inUnlock _ (Or.inl hj))
  · intro i j hi hne
    apply outside_of_not_holdsGuard
    cases hj : (sys.pc j).holdsGuard
    · rfl
    · exact absurd (hinv.1 j i hj (holdsGuard_of_inSpan_or_inUnlock _ hi)) hne

theorem lock_spans_exclusive_witness :
    runSchedule twoCallers (initSys (mapAdapter (lit "ns"))) = some twoCallersEnd ∧
    (twoCallersEnd.pc 0).inSpan = true ∧
    (twoCallersEnd.pc 1 = .idle ∨ ∃ t, twoCallersEnd.pc 1 = .lockCalled t) :=
  ⟨rfl, rfl, (lock_spans_exclusive (mapAdapter (lit "ns")) twoCallers twoCallersEnd rfl).2 0 1
    (Or.inl rfl) (by decide)⟩


/-! ### Runes and TrimSpace -/

theorem first_cases (b : Fin 256) :
    first b = 0xF0 ∨ first b = 0xF1 ∨ first b = 0x02 ∨ first b = 0x13 ∨ first b = 0x03 ∨
      first b = 0x23 ∨ first b = 0x34 ∨ first b = 0x04 ∨ first b = 0x44 := by
  unfold first
  split_ifs <;> simp

theorem first_ascii (b : Fin 256) (h : b.val < 0x80) : first b = 0xF0 := by
  unfold first
  rw [if_pos h]

/-- A first byte that starts a multi-byte encoding announces a width of 2, 3 or 4. -/
theorem first_width (b : Fin 256) (h : ¬ first b ≥ 0xF0) :
    first b &&& 7 = 2 ∨ first b &&& 7 = 3 ∨ first b &&& 7 = 4 := by
  rcases first_cases b with hf | hf | hf | hf | hf | hf | hf | hf | hf <;> rw [hf] at h ⊢ <;>
    first
      | exact absurd (by decide) h
      | decide

theorem DecodeRuneInString_ascii (c : Fin 256) (rest : GoString) (h : c.val < 0x80) :
    DecodeRuneInString (c :: rest) = (c.val, 1) := by
  unfold DecodeRuneInString
  simp [first_ascii c h]

theorem DecodeRuneInString_size_pos (s : GoString) (h : s ≠ []) :
    1 ≤ (DecodeRuneInString s).2 := by
  have hn : ¬ s.length < 1 := by
    cases s with
    | nil => exact absurd rfl h
    | cons c s => simp
  unfold DecodeRuneInString
  simp only [hn, if_false]
  by_cases hx : first (s.getD 0 0) ≥ 0xF0
  · simp only [hx, if_true]
    exact Nat.le_refl 1
  · simp only [hx, if_false]
    split_ifs <;> simp

theorem getD_take (t : GoString) (k i : Nat) (h : i < k) : (t.take k).getD i 0 = t.getD i 0 := by
  simp only [List.getD_eq_getElem?_getD, List.getElem?_take_of_lt h]

/-- A rune read from the first k bytes of a string and k bytes wide is the replacement rune
or the first rune of the whole string. -/
theorem DecodeRuneInString_take (t : GoString) (k r : Nat) (hk1 : 1 ≤ k) (hk : k ≤ t.length)
    (h : DecodeRuneInString (t.take k) = (r, k)) :
    r = RuneError ∨ DecodeRuneInString t = (r, k) := by
  have hlen : (t.take k).length = k := List.length_take_of_le hk
  have hne : ¬ t.length < 1 := by omega
  have hk0 : ¬ k < 1 := by omega
  unfold DecodeRuneInString at h ⊢
  simp only [hlen, hk0, hne, if_false, getD_take t k 0 (by omega)] at h ⊢
  by_cases hx : first (t.getD 0 0) ≥ 0xF0
  · simp only [hx, if_true] at h ⊢
    exact Or.inr h
  · simp only [hx, if_false] at h ⊢
    rcases first_width _ hx with hw | hw | hw
    · simp only [hw] at h ⊢
      by_cases hk2 : k < 2
      · simp only [hk2, if_true, Prod.mk.injEq] at h
        exact Or.inl h.1.symm
      · have hn2 : ¬ t.length < 2 := by omega
        simp only [hk2, hn2, if_false, getD_take t k 1 (by omega)] at h ⊢
        exact Or.inr h
    · simp only [hw] at h ⊢
      by_cases hk2 : k < 3
      · simp only [hk2, if_true, Prod.mk.injEq] at h
        exact Or.inl h.1.symm
      · have hn2 : ¬ t.length < 3 := by omega
        simp only [hk2, hn2, if_false, getD_take t k 1 (by omega),
          getD_take t k 2 (by omega)] at h ⊢
        exact Or.inr h
    · simp only [hw] at h ⊢
      by_cases hk2 : k < 4
      · simp only [hk2, if_true, Prod.mk.injEq] at h
        exact Or.inl h.1.symm
      · have hn2 : ¬ t.length < 4 := by omega
        simp only [hk2, hn2, if_false, getD_take t k 1 (by omega),
          getD_take t k 2 (by omega), getD_take t k 3 (by omega)] at h ⊢
        exact Or.inr h

theorem scanStart_le (s : GoString) (lim : Nat) :
    ∀ p, scanStart s lim p = lim ∨ scanStart s lim p < p := by
  intro p
  induction p with
  | zero => exact Or.inl rfl
  | succ k ih =>
    unfold scanStart
    split_ifs
    · exact Or.inl rfl
    · exact Or.inr (Nat.lt_succ_self k)
    · rcases ih with h | h
      · exact Or.inl h
      · exact Or.inr (Nat.lt_succ_of_lt h)

/-- The last rune of a non-empty string is at least one byte wide and no wider than the
string. -/
theorem DecodeLastRuneInString_size (p : GoString) (h : p ≠ []) :
    1 ≤ (DecodeLastRuneInString p).2 ∧ (DecodeLastRuneInString p).2 ≤ p.length := by
  have hlen : 1 ≤ p.length := by
    cases p with
    | nil => exact absurd rfl h
    | cons c s => simp
  have hn : ¬ p.length = 0 := by omega
  unfold DecodeLastRuneInString
  simp only [hn, if_false]
  split_ifs with h1 h2
  · exact ⟨Nat.le_refl 1, hlen⟩
  · exact ⟨Nat.le_refl 1, hlen⟩
  · simp only
    have hs := scanStart_le p (p.length - UTFMax) (p.length - 1)
    have h2 : scanStart p (p.length - UTFMax) (p.length - 1)
        + (DecodeRuneInString (List.drop (scanStart p (p.length - UTFMax) (p.length - 1)) p)).2
        = p.length := by
      by_contra hc
      exact h2 hc
    unfold UTFMax at hs h2
    unfold UTFMax
    omega

/-- A last rune that is as wide as the whole string is the replacement rune or the first rune
of the string. -/
theorem DecodeLastRuneInString_whole (p : GoString) (r : Nat) (hne : p ≠ [])
    (h : DecodeLastRuneInString p = (r, p.length)) :
    r = RuneError ∨ DecodeRuneInString p = (r, p.length) := by
  have hlen : 1 ≤ p.length := by
    cases p with
    | nil => exact absurd rfl hne
    | cons c s => simp
  have hn : ¬ p.length = 0 := by omega
  unfold DecodeLastRuneInString at h
  simp only [hn, if_false] at h
  split_ifs at h with h1 h2
  · simp only [Prod.mk.injEq] at h
    right
    cases p with
    | nil => exact absurd rfl hne
    | cons c s =>
      have hs : s = [] := by
        have := h.2
        simp only [List.length_cons] at this
        exact List.length_eq_zero.1 (by omega)
      subst hs
      simp only [List.length_singleton, Nat.sub_self, List.getD_cons_zero] at h1 h
      rw [DecodeRuneInString_ascii c [] h1, ← h.1]
      rfl
  · simp only [Prod.mk.injEq] at h
    exact Or.inl h.1.symm
  · simp only [Prod.mk.injEq] at h
    have h2 : scanStart p (p.length - UTFMax) (p.length - 1)
        + (DecodeRuneInString (List.drop (scanStart p (p.length - UTFMax) (p.length - 1)) p)).2
        = p.length := by
      by_contra hc
      exact h2 hc
    have h0 : scanStart p (p.length - UTFMax) (p.length - 1) = 0 := by omega
    rw [h0, List.drop_zero] at h
    right
    exact Prod.ext h.1 h.2

theorem length_drop_lt (s : GoString) (n : Nat) (hs : s ≠ []) (hn : 1 ≤ n) :
    (s.drop n).length < s.length := by
  have : 1 ≤ s.length := by
    cases s with
    | nil => exact absurd rfl hs
    | cons c s => simp
  rw [List.length_drop]
  omega

/-- The loop of indexFunc either finds no rune where f is false, and then f holds of every
rune, or stops at a byte index where the rune read does not satisfy f. -/
theorem indexFuncLoop_false (f : Nat → Bool) : ∀ (fuel i : Nat) (rest : GoString) (m : Nat),
    rest.length < fuel → rest.length ≤ m →
    (indexFuncLoop f false fuel i rest = -1 ∧ ∀ r ∈ runesLoop m rest, f r = true) ∨
    (∃ k, indexFuncLoop f false fuel i rest = ((i + k : Nat) : Int) ∧ k < rest.length ∧
      f (DecodeRuneInString (rest.drop k)).1 = false ∧ ∃ r ∈ runesLoop m rest, f r = false) := by
  intro fuel
  induction fuel with
  | zero => intro i rest m h; omega
  | succ fuel ih =>
    intro i rest m hfuel hm
    by_cases hrest : rest = []
    · subst hrest
      left
      refine ⟨by simp [indexFuncLoop], ?_⟩
      intro r hr
      cases m <;> simp [runesLoop] at hr
    · have hpos := DecodeRuneInString_size_pos rest hrest
      have hlt := length_drop_lt rest _ hrest hpos
      have hlen : 1 ≤ rest.length := by omega
      obtain ⟨m1, hm1⟩ : ∃ m1, m = m1 + 1 := ⟨m - 1, by omega⟩
      subst hm1
      simp only [indexFuncLoop, hrest, if_false, runesLoop, List.mem_cons]
      by_cases hf : f (DecodeRuneInString rest).1 = false
      · right
        refine ⟨0, by simp [hf], by omega, by simpa using hf, _, Or.inl rfl, hf⟩
      · simp only [hf, if_false]
        have hft : f (DecodeRuneInString rest).1 = true := by
          cases h : f (DecodeRuneInString rest).1
          · exact absurd h hf
          · rfl
        rcases ih (i + (DecodeRuneInString rest).2) (rest.drop (DecodeRuneInString rest).2) m1
          (by omega) (by omega) with ⟨h1, h2⟩ | ⟨k, h1, h2, h3, r, h4, h5⟩
        · left
          refine ⟨h1, ?_⟩
          intro r hr
          rcases hr with hr | hr
          · rw [hr]; exact hft
          · exact h2 r hr
        · right
          refine ⟨(DecodeRuneInString rest).2 + k, ?_, ?_, ?_, r, Or.inr h4, h5⟩
          · rw [h1, Nat.add_assoc]
            simp
          · rw [List.length_drop] at h2
            omega
          · rw [List.drop_drop] at h3
            exact h3

/-- TrimLeftFunc returns the empty string when f holds of every rune, and otherwise a non-empty
string whose first rune does not satisfy f. -/
theorem TrimLeftFunc_cases (s : GoString) (f : Nat → Bool) :
    (TrimLeftFunc s f = [] ∧ ∀ r ∈ runes s, f r = true) ∨
    (TrimLeftFunc s f ≠ [] ∧ f (DecodeRuneInString (TrimLeftFunc s f)).1 = false ∧
      ∃ r ∈ runes s, f r = false) := by
  unfold TrimLeftFunc indexFunc runes
  rcases indexFuncLoop_false f (s.length + 1) 0 s s.length (by omega) (Nat.le_refl _) with
    ⟨h1, h2⟩ | ⟨k, h1, h2, h3, h4⟩
  · left
    simp only [h1, if_true]
    exact ⟨trivial, h2⟩
  · right
    have hne : ((0 + k : Nat) : Int) ≠ -1 := by omega
    simp only [h1, hne, if_false, Int.toNat_ofNat, Nat.zero_add]
    refine ⟨?_, h3, h4⟩
    intro hd
    have := List.drop_eq_nil_iff.1 hd
    omega

/-- On a non-empty string whose first rune does not satisfy f, the loop of lastIndexFunc
stops at a byte index below its start. -/
theorem lastIndexFuncLoop_false (t : GoString) (f : Nat → Bool) (hne : t ≠ [])
    (herr : f RuneError = false) (hfirst : f (DecodeRuneInString t).1 = false) :
    ∀ (fuel i : Nat), 1 ≤ i → i ≤ t.length → i < fuel →
      ∃ j : Nat, lastIndexFuncLoop t f false fuel i = (j : Int) ∧ j < i := by
  intro fuel
  induction fuel with
  | zero => intro i _ _ h; omega
  | succ fuel ih =>
    intro i hi1 hi2 hfuel
    have hi0 : i > 0 := by omega
    have htake : t.take i ≠ [] := by
      intro h
      rcases List.take_eq_nil_iff.1 h with h | h
      · omega
      · exact hne h
    have hlen : (t.take i).length = i := List.length_take_of_le hi2
    have hsize := DecodeLastRuneInString_size (t.take i) htake
    rw [hlen] at hsize
    simp only [lastIndexFuncLoop, hi0, if_true]
    by_cases hf : f (DecodeLastRuneInString (t.take i)).1 = false
    · simp only [hf, if_true]
      exact ⟨i - (DecodeLastRuneInString (t.take i)).2, rfl, by omega⟩
    · simp only [hf, if_false]
      have hsz : (DecodeLastRuneInString (t.take i)).2 ≠ i := by
        intro hsz
        have hw : DecodeLastRuneInString (t.take i)
            = ((DecodeLastRuneInString (t.take i)).1, (t.take i).length) := by
          rw [hlen]
          exact Prod.ext rfl hsz
        rcases DecodeLastRuneInString_whole (t.take i) _ htake hw with h | h
        · rw [h] at hf
          exact hf herr
        · rw [hlen] at h
          rcases DecodeRuneInString_take t i _ hi1 hi2 h with h1 | h1
          · rw [h1] at hf
            exact hf herr
          · rw [h1] at hfirst
            exact hf hfirst
      rcases ih (i - (DecodeLastRuneInString (t.take i)).2) (by omega) (by omega) (by omega) with
        ⟨j, hj1, hj2⟩
      exact ⟨j, hj1, by omega⟩

/-- TrimRightFunc keeps at least one byte of a non-empty string whose first rune does not
satisfy f. -/
theorem TrimRightFunc_ne_nil (t : GoString) (f : Nat → Bool) (hne : t ≠ [])
    (herr : f RuneError = false) (hfirst : f (DecodeRuneInString t).1 = false) :
    TrimRightFunc t f ≠ [] := by
  have hlen : 1 ≤ t.length := by
    cases t with
    | nil => exact absurd rfl hne
    | cons c s => simp
  obtain ⟨j, hj1, hj2⟩ := lastIndexFuncLoop_false t f hne herr hfirst (t.length + 1) t.length
    hlen (Nat.le_refl _) (by omega)
  unfold TrimRightFunc lastIndexFunc
  simp only [hj1, Int.toNat_ofNat]
  have hdrop : t.drop j ≠ [] := by
    intro h
    have := List.drop_eq_nil_iff.1 h
    omega
  have hw := DecodeRuneInString_size_pos (t.drop j) hdrop
  split_ifs
  · intro h
    rcases List.take_eq_nil_iff.1 h with h | h
    · omega
    · exact hne h
  · intro h
    rcases List.take_eq_nil_iff.1 h with h | h
    · have : ((j : Int) + 1).toNat = j + 1 := by omega
      omega
    · exact hne h

theorem TrimRightFunc_nil (f : Nat → Bool) : TrimRightFunc [] f = [] := by
  simp [TrimRightFunc]

/-- TrimFunc returns the empty string exactly when f holds of every rune of the string,
provided f does not hold of the replacement rune. -/
theorem TrimFunc_eq_nil_iff (s : GoString) (f : Nat → Bool) (herr : f RuneError = false) :
    TrimFunc s f = [] ↔ ∀ r ∈ runes s, f r = true := by
  unfold TrimFunc
  rcases TrimLeftFunc_cases s f with ⟨h1, h2⟩ | ⟨h1, h2, r, h3, h4⟩
  · rw [h1]
    exact ⟨fun _ => h2, fun _ => TrimRightFunc_nil f⟩
  · constructor
    · intro h
      exact absurd h (TrimRightFunc_ne_nil _ f h1 herr h2)
    · intro h
      rw [h r h3] at h4
      cases h4

theorem IsSpace_RuneError : IsSpace RuneError = false := by decide

set_option maxRecDepth 100000 in
theorem IsSpace_ascii : ∀ c : Fin 256, c.val < 0x80 →
    (IsSpace c.val = true ↔ asciiSpace c ≠ 0) := by
  decide

/-- The second loop of TrimSpace keeps at least one byte of a string that begins with an ASCII
byte that is not a space. -/
theorem trimSpaceStop_ne_nil (c : Fin 256) (rest : GoString) (hc : c.val < 0x80)
    (hns : asciiSpace c = 0) :
    ∀ n, 1 ≤ n → trimSpaceStop (c :: rest) n ≠ [] := by
  have hsp : IsSpace c.val = false := by
    cases h : IsSpace c.val
    · rfl
    · exact absurd hns ((IsSpace_ascii c hc).1 h)
  intro n
  induction n with
  | zero => intro h; omega
  | succ stop ih =>
    intro _
    unfold trimSpaceStop
    simp only
    split_ifs with h1 h2
    · apply TrimRightFunc_ne_nil _ _ (by simp) IsSpace_RuneError
      rw [List.take_succ_cons, DecodeRuneInString_ascii c _ hc]
      exact hsp
    · simp
    · apply ih
      by_contra h0
      have : stop = 0 := by omega
      subst this
      simp only [List.getD_cons_zero] at h2
      exact h2 hns

theorem runes_cons_ascii (c : Fin 256) (rest : GoString) (hc : c.val < 0x80) :
    runes (c :: rest) = c.val :: runes rest := by
  unfold runes
  simp [runesLoop, DecodeRuneInString_ascii c rest hc]

/-- TrimSpace returns the empty string exactly when the string is blank. -/
theorem TrimSpace_eq_nil_iff : ∀ s : GoString, TrimSpace s = [] ↔ isBlank s := by
  intro s
  induction s with
  | nil =>
    unfold isBlank
    simp [TrimSpace, trimSpaceStop, runes, runesLoop]
  | cons c rest ih =>
    unfold TrimSpace
    split_ifs with h1 h2
    · exact TrimFunc_eq_nil_iff (c :: rest) IsSpace IsSpace_RuneError
    · have hc : c.val < 0x80 := by
        unfold RuneSelf at h1
        omega
      constructor
      · intro h
        exact absurd h (trimSpaceStop_ne_nil c rest hc h2 _ (by simp))
      · intro h
        exfalso
        have hsp : IsSpace c.val = true := h c.val (by rw [runes_cons_ascii c rest hc]; simp)
        exact (IsSpace_ascii c hc).1 hsp h2
    · have hc : c.val < 0x80 := by
        unfold RuneSelf at h1
        omega
      have hsp : IsSpace c.val = true := (IsSpace_ascii c hc).2 h2
      rw [ih]
      unfold isBlank
      rw [runes_cons_ascii c rest hc]
      simp [hsp]

theorem TrimSpace_length_lt_one_iff (s : GoString) : (TrimSpace s).length < 1 ↔ isBlank s := by
  rw [← TrimSpace_eq_nil_iff]
  constructor
  · intro h
    exact List.length_eq_zero.1 (by omega)
  · intro h
    rw [h]
    decide

/-! ### Construction -/

/-- C5: NewRedisSyncAdapter returns an error exactly when MutexName is blank (empty, or white
space only) or Pool is nil, and then it returns no adapter; in every other case it returns a
nil error and an adapter whose namespace is MutexName as given, whose pool is the pool given,
whose cache of lock handles is empty and whose guard is free. -/
theorem NewRedisSyncAdapter_result {σ : Type} (config : Config σ) :
    ((NewRedisSyncAdapter config).2 ≠ none ↔ (isBlank config.MutexName ∨ config.Pool = none)) ∧
    ((NewRedisSyncAdapter config).2 ≠ none → (NewRedisSyncAdapter config).1 = none) ∧
    (∀ pool, ¬ isBlank config.MutexName → config.Pool = some pool →
      NewRedisSyncAdapter config
        = (some { pool := pool, redsync := redsyncNew (some pool),
                  localMutext := SyncMutex.zero, mutexMap := [],
                  mutexName := config.MutexName, heap := 0 }, none)) := by
  have hb := TrimSpace_length_lt_one_iff config.MutexName
  refine ⟨?_, ?_, ?_⟩
  · unfold NewRedisSyncAdapter
    by_cases h : (TrimSpace config.MutexName).length < 1
    · simp only [h, if_true]
      exact ⟨fun _ => Or.inl (hb.1 h), fun _ => by simp⟩
    · simp only [h, if_false]
      cases hp : config.Pool with
      | none => exact ⟨fun _ => Or.inr rfl, fun _ => by simp⟩
      | some pool =>
        simp only
        constructor
        · intro hc
          exact absurd rfl hc
        · rintro (hc | hc)
          · exact absurd (hb.2 hc) h
          · cases hc
  · unfold NewRedisSyncAdapter
    by_cases h : (TrimSpace config.MutexName).length < 1
    · simp only [h, if_true, implies_true]
    · simp only [h, if_false]
      cases hp : config.Pool with
      | none => simp only [implies_true]
      | some pool =>
        simp only
        intro hc
        exact absurd rfl hc
  · intro pool hnb hp
    have h : ¬ (TrimSpace config.MutexName).length < 1 := fun h => hnb (hb.1 h)
    unfold NewRedisSyncAdapter
    simp only [h, if_false, hp]

theorem NewRedisSyncAdapter_result_witness :
    isBlank ([0xC2, 0xA0, 0x20, 0xE3, 0x80, 0x80, 0x09] : GoString) ∧
    (NewRedisSyncAdapter
      (⟨[0xC2, 0xA0, 0x20, 0xE3, 0x80, 0x80, 0x09], some mapPool⟩ : Config MapStore)).2 ≠ none ∧
    ¬ isBlank (lit " redisAdapterTest ") ∧
    NewRedisSyncAdapter (⟨lit " redisAdapterTest ", some mapPool⟩ : Config MapStore)
      = (some (mapAdapter (lit " redisAdapterTest ")), none) ∧
    (NewRedisSyncAdapter (⟨lit "redisAdapterTest", none⟩ : Config MapStore)).1 = none :=
  ⟨by unfold isBlank; decide,
   (NewRedisSyncAdapter_result
      (⟨[0xC2, 0xA0, 0x20, 0xE3, 0x80, 0x80, 0x09], some mapPool⟩ : Config MapStore)).1.2
      (Or.inl (by unfold isBlank; decide)),
   by unfold isBlank; decide,
   (NewRedisSyncAdapter_result (⟨lit " redisAdapterTest ", some mapPool⟩ : Config MapStore)).2.2
      mapPool (by unfold isBlank; decide) rfl,
   (NewRedisSyncAdapter_result (⟨lit "redisAdapterTest", none⟩ : Config MapStore)).2.1
      ((NewRedisSyncAdapter_result (⟨lit "redisAdapterTest", none⟩ : Config MapStore)).1.2
        (Or.inr rfl))⟩

end GollRedis
